import Mathlib

/-!
# Verification development for the freelance-listing scraper

Shallow embedding of the budget threshold (`internal/model/budget.go`), the
message segmentation and delivery worker (`internal/telegram/telegram.go`), the
orchestrator (`internal/services/scraping/service.go`), the value conversions
and budget text (`internal/providers/common/common.go`) and the item and page
loops of the two scrapers (`internal/providers/karlancer/scraper.go`,
`internal/providers/ponisha/scraper.go`).

Conventions.
* Go `int64` / `int` values are modelled as `Int`; comparisons do not overflow.
  Where an arithmetic operation may wrap, the wrap is written explicitly.
* A Go `string` is a sequence of bytes (`List Nat`); the conversions
  `[]rune(s)` and `string(runes)` are the UTF-8 decoder and encoder of the Go
  runtime (an invalid byte decodes to U+FFFD and advances by one byte).
* External collaborators (store, remote channel, clock) are explicit state
  machines passed as parameters; a page fetch is a function from the page number
  to an error or the decoded payload.
* Goroutines that share state under a mutex are run in the order in which they
  finish, which is a parameter.
* A floating-point value is represented by the results of the conversions the
  code applies to it.
-/

namespace model

/-- The constant `TomanThreshold` of `budget.go`. -/
def TomanThreshold : Int := 99000000

/-- The function `IsAboveThreshold` of `budget.go`. -/
def IsAboveThreshold (amountMin amountMax : Int) : Bool :=
  decide (amountMax > TomanThreshold) || decide (amountMin > TomanThreshold)

/-- The struct `ScrapedProject`; `BidsCount` is a nullable pointer. -/
structure ScrapedProject where
  Source : List Nat
  ExternalID : List Nat
  Title : List Nat
  Link : List Nat
  BudgetText : List Nat
  AmountMin : Int
  AmountMax : Int
  Description : List Nat
  Skills : List (List Nat)
  ApprovedAt : List Nat
  BiddingClosedAt : List Nat
  BidsCount : Option Int
deriving DecidableEq, Repr

/-- The struct `ProjectCreate`. -/
structure ProjectCreate where
  Source : List Nat
  ExternalID : List Nat
  Title : List Nat
  Link : List Nat
  BudgetText : List Nat
  AmountMin : Int
  AmountMax : Int
deriving DecidableEq, Repr

/-- The struct `Project`; `CreatedAt` is kept as an opaque timestamp number. -/
structure Project where
  ID : Int
  Source : List Nat
  ExternalID : List Nat
  Title : List Nat
  Link : List Nat
  BudgetText : List Nat
  AmountMin : Int
  AmountMax : Int
  CreatedAt : Int
deriving DecidableEq, Repr

end model

namespace gostring

/-- Go strings are byte sequences. -/
abbrev GoString := List Nat

/-- The replacement rune U+FFFD (`runeError` of the Go runtime). -/
def runeError : Nat := 0xFFFD

/-- Continuation byte test: `locb <= b && b <= hicb`. -/
def isCont (b : Nat) : Bool := decide (0x80 ≤ b) && decide (b ≤ 0xBF)

/-- Scalar values: at most `maxRune` and outside the surrogate range. -/
def validRune (r : Nat) : Bool :=
  decide (r ≤ 0x10FFFF) && !(decide (0xD800 ≤ r) && decide (r ≤ 0xDFFF))

/-- One step of `for _, r := range s`: the rune at the head of `s` and the
number of bytes consumed (`decoderune` of the Go runtime, preceded by the
single-byte fast path). Masks and shifts are written as `%` and `*`. -/
def decodeRune : GoString → Nat × Nat
  | [] => (runeError, 1)
  | b0 :: rest =>
    if b0 < 0x80 then (b0, 1)
    else if 0xC0 ≤ b0 ∧ b0 < 0xE0 then
      match rest with
      | b1 :: _ =>
        if isCont b1 then
          let r := (b0 % 32) * 64 + b1 % 64
          if 0x7F < r then (r, 2) else (runeError, 1)
        else (runeError, 1)
      | _ => (runeError, 1)
    else if 0xE0 ≤ b0 ∧ b0 < 0xF0 then
      match rest with
      | b1 :: b2 :: _ =>
        if isCont b1 && isCont b2 then
          let r := (b0 % 16) * 4096 + (b1 % 64) * 64 + b2 % 64
          if 0x7FF < r ∧ ¬ (0xD800 ≤ r ∧ r ≤ 0xDFFF) then (r, 3) else (runeError, 1)
        else (runeError, 1)
      | _ => (runeError, 1)
    else if 0xF0 ≤ b0 ∧ b0 < 0xF8 then
      match rest with
      | b1 :: b2 :: b3 :: _ =>
        if isCont b1 && isCont b2 && isCont b3 then
          let r := (b0 % 8) * 262144 + (b1 % 64) * 4096 + (b2 % 64) * 64 + b3 % 64
          if 0xFFFF < r ∧ r ≤ 0x10FFFF then (r, 4) else (runeError, 1)
        else (runeError, 1)
      | _ => (runeError, 1)
    else (runeError, 1)

/-- Decoding loop with a count of bytes still to be skipped (the bytes of the
rune decoded last). -/
def stringToRunesAux : Nat → GoString → List Nat
  | _, [] => []
  | skip + 1, _ :: rest => stringToRunesAux skip rest
  | 0, b :: rest => (decodeRune (b :: rest)).1 :: stringToRunesAux ((decodeRune (b :: rest)).2 - 1) rest

/-- The conversion `[]rune(s)`. -/
def stringToRunes (s : GoString) : List Nat := stringToRunesAux 0 s

/-- The UTF-8 encoding of one rune (`encoderune` of the Go runtime): runes above
`maxRune` and surrogates are encoded as U+FFFD. -/
def encodeRune (r : Nat) : GoString :=
  if r ≤ 0x7F then [r]
  else if r ≤ 0x7FF then [0xC0 + r / 64, 0x80 + r % 64]
  else if 0x10FFFF < r ∨ (0xD800 ≤ r ∧ r ≤ 0xDFFF) then [0xEF, 0xBF, 0xBD]
  else if r ≤ 0xFFFF then [0xE0 + r / 4096, 0x80 + (r / 64) % 64, 0x80 + r % 64]
  else [0xF0 + r / 262144, 0x80 + (r / 4096) % 64, 0x80 + (r / 64) % 64, 0x80 + r % 64]

/-- The conversion `string(runes)`. -/
def runesToString (runes : List Nat) : GoString := (runes.map encodeRune).flatten

/-- Number of code points of a string: `len([]rune(s))`. -/
def runeCount (s : GoString) : Nat := (stringToRunes s).length

end gostring

namespace telegram

open gostring

/-- The slice expression `runes[start:end]`. -/
def sliceRunes (runes : List Nat) (start stop : Nat) : List Nat :=
  (runes.drop start).take (stop - start)

/-- The loop of `splitMessage`, one iteration per unit of fuel; `none` when the
fuel runs out before the loop condition fails. -/
def splitLoop (runes : List Nat) (limit : Nat) : Nat → Nat → List GoString → Option (List GoString)
  | 0, start, parts => if start < runes.length then none else some parts
  | fuel + 1, start, parts =>
    if start < runes.length then
      let stop := if start + limit > runes.length then runes.length else start + limit
      splitLoop runes limit fuel (start + limit) (parts ++ [runesToString (sliceRunes runes start stop)])
    else some parts

/-- The function `splitMessage` of `telegram.go`, for a non-negative `limit`.
The loop gets `len(runes)` iterations of fuel, which is enough whenever
`limit > 0`; with `limit = 0` and a non-empty message the Go loop does not
terminate and the model returns `none`. -/
def splitMessage (message : GoString) (limit : Nat) : Option (List GoString) :=
  let runes := stringToRunes message
  if runes.length ≤ limit then some [message]
  else splitLoop runes limit runes.length 0 []

/-- The segments `SendAlert` sends to the queue, in order, for a formatted
message: `for _, part := range splitMessage(message, 4096)`. The formatter
`formatMessage` relies on an external calendar library and is a parameter. -/
def SendAlertSegments (formatMessage : model.ScrapedProject → GoString)
    (project : model.ScrapedProject) : Option (List GoString) :=
  splitMessage (formatMessage project) 4096

/-- Number of loop iterations from `start`: the ceiling of `(n - start) / limit`. -/
def numParts (n limit start : Nat) : Nat := (n - start + limit - 1) / limit

/-- The block of at most `limit` runes that starts `j` blocks after `start`. -/
def chunkAt (runes : List Nat) (limit start j : Nat) : List Nat :=
  (runes.drop (start + j * limit)).take limit

end telegram

namespace scraping

open gostring

/-- What one call of `CreateIfNotExists` returns, `(model.Project, bool, error)`
with `err = none` for a nil error, together with the store state it leaves. -/
structure CreateResult (σ : Type) where
  store : σ
  saved : model.Project
  created : Bool
  err : Option String

/-- The interface `repositories.ProjectRepository`: an arbitrary store, as a
state machine over store states `σ`. -/
structure ProjectRepository (σ : Type) where
  CreateIfNotExists : σ → model.ProjectCreate → CreateResult σ

/-- The interface `SiteScraper`, reduced to what one run observes: the source
tag and the pair `(projects, err)` returned by its `Scrape` call. -/
structure SiteScraper where
  Source : GoString
  Scrape : List model.ScrapedProject × Option String

/-- The local type `result` of `scrape`. -/
structure result where
  source : GoString
  projects : List model.ScrapedProject
deriving DecidableEq, Repr

/-- The struct `scrapeStats`. -/
structure scrapeStats where
  fetched : Nat
  overThreshold : Nat
  belowThreshold : Nat
  duplicates : Nat
  saved : Nat
deriving DecidableEq, Repr

/-- The all-zero statistics record `&scrapeStats{}`. -/
def zeroStats : scrapeStats :=
  { fetched := 0, overThreshold := 0, belowThreshold := 0, duplicates := 0, saved := 0 }

/-- Observable side effects of `scrape`, in the order they happen: calls of
`repo.CreateIfNotExists` (with what the store answered) and calls of
`notifier.SendAlert`. -/
inductive Effect where
  | insert (input : model.ProjectCreate) (saved : model.Project) (created : Bool)
      (err : Option String)
  | alert (project : model.ScrapedProject)
deriving DecidableEq, Repr

/-- The function `isAboveThreshold` of `service.go`. -/
def isAboveThreshold (p : model.ScrapedProject) : Bool :=
  model.IsAboveThreshold p.AmountMin p.AmountMax

/-- The `model.ProjectCreate` literal built in the loop of `scrape`. -/
def projectCreateOf (project : model.ScrapedProject) : model.ProjectCreate :=
  { Source := project.Source
    ExternalID := project.ExternalID
    Title := project.Title
    Link := project.Link
    BudgetText := project.BudgetText
    AmountMin := project.AmountMin
    AmountMax := project.AmountMax }

/-- The value `telegramProject`: a copy of `project` with `Source` and `Link`
overwritten from the stored record. -/
def telegramProject (project : model.ScrapedProject) (saved : model.Project) :
    model.ScrapedProject :=
  { project with Source := saved.Source, Link := saved.Link }

/-- State of the inner loop of `scrape`: the store, the effects so far and the
statistics record `st` of the batch being processed. -/
structure LoopState (σ : Type) where
  store : σ
  effects : List Effect
  st : scrapeStats

/-- One iteration of `for _, project := range res.projects`. -/
def processProject {σ : Type} (repo : ProjectRepository σ) (s : LoopState σ)
    (project : model.ScrapedProject) : LoopState σ :=
  if !isAboveThreshold project then
    { s with st := { s.st with belowThreshold := s.st.belowThreshold + 1 } }
  else
    let st1 := { s.st with overThreshold := s.st.overThreshold + 1 }
    let r := repo.CreateIfNotExists s.store (projectCreateOf project)
    let effects1 := s.effects ++ [Effect.insert (projectCreateOf project) r.saved r.created r.err]
    if r.err.isSome then
      { store := r.store, effects := effects1, st := st1 }
    else if !r.created then
      { store := r.store, effects := effects1,
        st := { st1 with duplicates := st1.duplicates + 1 } }
    else
      { store := r.store,
        effects := effects1 ++ [Effect.alert (telegramProject project r.saved)],
        st := { st1 with saved := st1.saved + 1 } }

/-- The inner loop of `scrape` over one batch. -/
def processBatch {σ : Type} (repo : ProjectRepository σ) (s : LoopState σ)
    (projects : List model.ScrapedProject) : LoopState σ :=
  projects.foldl (processProject repo) s

/-- The map `stats` of `scrape`, as an association list keyed by source. -/
abbrev StatsMap := List (GoString × scrapeStats)

/-- The lookup `stats[source]` (`none` for a nil entry). -/
def statsGet (stats : StatsMap) (source : GoString) : Option scrapeStats :=
  (stats.find? (fun e => e.1 == source)).map (fun e => e.2)

/-- Writing the record of `source` back: the entry is replaced, or added when
the source has no entry yet. -/
def statsSet : StatsMap → GoString → scrapeStats → StatsMap
  | [], source, st => [(source, st)]
  | (k, v) :: rest, source, st =>
    if k == source then (k, st) :: rest else (k, v) :: statsSet rest source st

/-- State of the outer loop of `scrape`. -/
structure RunState (σ : Type) where
  store : σ
  effects : List Effect
  stats : StatsMap

/-- One iteration of `for res := range results`. -/
def processResult {σ : Type} (repo : ProjectRepository σ) (rs : RunState σ) (res : result) :
    RunState σ :=
  let st0 := (statsGet rs.stats res.source).getD zeroStats
  let st1 := { st0 with fetched := st0.fetched + res.projects.length }
  let ls := processBatch repo { store := rs.store, effects := rs.effects, st := st1 } res.projects
  { store := ls.store, effects := ls.effects, stats := statsSet rs.stats res.source ls.st }

/-- The goroutine started for one scraper: the `result` it sends on the
channel. A scraper that returns an error sends an empty batch. -/
def scraperTask (sc : SiteScraper) : result :=
  if sc.Scrape.2.isSome then { source := sc.Source, projects := [] }
  else { source := sc.Source, projects := sc.Scrape.1 }

/-- The method `Service.scrape`. The argument `completion` lists the configured
scrapers in the order in which their goroutines send on the `results` channel
(any permutation of `s.scrapers`). Returns the final state and the returned
error, which is always nil. -/
def scrape {σ : Type} (repo : ProjectRepository σ) (store : σ) (completion : List SiteScraper) :
    RunState σ × Option String :=
  let results := completion.map scraperTask
  (results.foldl (processResult repo) { store := store, effects := [], stats := [] }, none)

/-- The `SendAlert` calls among a list of effects, in order. -/
def alertsOf (effects : List Effect) : List model.ScrapedProject :=
  effects.filterMap (fun e => match e with
    | Effect.alert p => some p
    | _ => none)

/-- The `CreateIfNotExists` inputs among a list of effects, in order. -/
def insertsOf (effects : List Effect) : List model.ProjectCreate :=
  effects.filterMap (fun e => match e with
    | Effect.insert input _ _ _ => some input
    | _ => none)

/-- The effects one listing causes when the store is in state `store`. -/
def listingEffects {σ : Type} (repo : ProjectRepository σ) (store : σ)
    (project : model.ScrapedProject) : List Effect :=
  (processProject repo
    { store := store, effects := [], st := zeroStats }
    project).effects

/-- The store state after one listing was processed from state `store`. -/
def storeAfter {σ : Type} (repo : ProjectRepository σ) (store : σ)
    (project : model.ScrapedProject) : σ :=
  (processProject repo
    { store := store, effects := [], st := zeroStats }
    project).store

/-- An in-memory store used for concrete runs: the state is the list of stored
inputs; an input with an empty `ExternalID` is rejected with an error, an input
whose `(Source, ExternalID)` is already stored is reported as not created, and
any other input is stored and returned with its `Link` as stored. -/
def memoryRepo : ProjectRepository (List model.ProjectCreate) where
  CreateIfNotExists := fun store input =>
    if input.ExternalID = [] then
      { store := store, saved := ⟨0, [], [], [], [], [], 0, 0, 0⟩, created := false,
        err := some "insert failed" }
    else if store.any (fun x => x.Source == input.Source && x.ExternalID == input.ExternalID) then
      { store := store, saved := ⟨0, [], [], [], [], [], 0, 0, 0⟩, created := false, err := none }
    else
      { store := store ++ [input],
        saved := ⟨store.length + 1, input.Source, input.ExternalID, input.Title, input.Link,
          input.BudgetText, input.AmountMin, input.AmountMax, 0⟩,
        created := true, err := none }

/-- The effects of a batch, one segment per listing, starting from `store`. -/
def batchSegments {σ : Type} (repo : ProjectRepository σ) :
    σ → List model.ScrapedProject → List (List Effect)
  | _, [] => []
  | store, p :: ps =>
    listingEffects repo store p :: batchSegments repo (storeAfter repo store p) ps

/-- The store state after a batch was processed from state `store`. -/
def storeAfterBatch {σ : Type} (repo : ProjectRepository σ) (store : σ)
    (projects : List model.ScrapedProject) : σ :=
  projects.foldl (storeAfter repo) store

/-- A sample listing above the threshold (`AmountMax = 100000000`). -/
def sampleHigh : model.ScrapedProject :=
  { Source := [0x70], ExternalID := [0x31], Title := [0x54], Link := [0x2F, 0x31],
    BudgetText := [0x62], AmountMin := 0, AmountMax := 100000000, Description := [],
    Skills := [], ApprovedAt := [], BiddingClosedAt := [], BidsCount := none }

/-- A sample listing exactly at the threshold, hence not above it. -/
def sampleLow : model.ScrapedProject :=
  { Source := [0x70], ExternalID := [0x33], Title := [0x56], Link := [0x2F, 0x33],
    BudgetText := [0x62], AmountMin := 99000000, AmountMax := 99000000, Description := [],
    Skills := [], ApprovedAt := [], BiddingClosedAt := [], BidsCount := none }

/-- Number of `CreateIfNotExists` calls among the effects that returned an
error. -/
def failedInsertsOf (effects : List Effect) : Nat :=
  (effects.filter (fun e => match e with
    | Effect.insert _ _ _ err => err.isSome
    | _ => false)).length

/-- Number of `CreateIfNotExists` calls among the effects that returned a nil
error and `created = false`. -/
def duplicateInsertsOf (effects : List Effect) : Nat :=
  (effects.filter (fun e => match e with
    | Effect.insert _ _ created err => !err.isSome && !created
    | _ => false)).length

/-- Where one call of `Service.Run` stands: before the first critical section,
after it with the flag taken and `scrape` not yet run, after `scrape` with the
deferred function still to run, or returned. -/
inductive RunPc where
  | entry
  | working
  | exiting
  | returned
deriving DecidableEq, Repr

/-- The `Service` with its collaborators and the calls of `Run` in progress:
the flag `running`, the store, the effects and log lines so far, and the
position of every call (calls are numbered; every call starts at `entry`). -/
structure Sys (σ : Type) where
  running : Bool
  store : σ
  effects : List Effect
  logs : List String
  pc : Nat → RunPc

/-- One atomic step of call `i` of `Service.Run`. The two critical sections
(under `s.mu`) are one step each; `scrapeFn` is the behaviour of `s.scrape`,
which may return an error. -/
def RunStep {σ : Type} (scrapeFn : σ → RunState σ × Option String) (i : Nat) (sys : Sys σ) :
    Sys σ :=
  match sys.pc i with
  | RunPc.entry =>
    if sys.running then
      { sys with
        logs := sys.logs ++ ["scrape already running; skipping"]
        pc := Function.update sys.pc i RunPc.returned }
    else
      { sys with running := true, pc := Function.update sys.pc i RunPc.working }
  | RunPc.working =>
    { sys with
      store := (scrapeFn sys.store).1.store
      effects := sys.effects ++ (scrapeFn sys.store).1.effects
      logs := match (scrapeFn sys.store).2 with
        | some e => sys.logs ++ ["scrape error: " ++ e]
        | none => sys.logs
      pc := Function.update sys.pc i RunPc.exiting }
  | RunPc.exiting =>
    { sys with running := false, pc := Function.update sys.pc i RunPc.returned }
  | RunPc.returned => sys

/-- An interleaving of calls: the steps are taken in the order of `sched`. -/
def runSchedule {σ : Type} (scrapeFn : σ → RunState σ × Option String) (sched : List Nat)
    (sys : Sys σ) : Sys σ :=
  sched.foldl (fun s i => RunStep scrapeFn i s) sys

/-- One call of `Service.Run` executed without interruption. -/
def Run {σ : Type} (scrapeFn : σ → RunState σ × Option String) (i : Nat) (sys : Sys σ) : Sys σ :=
  runSchedule scrapeFn [i, i, i] sys

/-- The state of a fresh `Service` (`NewService`): flag clear, no call started. -/
def idleSys {σ : Type} (store : σ) : Sys σ :=
  { running := false, store := store, effects := [], logs := [], pc := fun _ => RunPc.entry }

/-- A call is in flight between its two critical sections. -/
def inFlight (pc : RunPc) : Bool :=
  match pc with
  | RunPc.working => true
  | RunPc.exiting => true
  | _ => false

/-- Single-flight invariant: at most one call is in flight, and the flag is set
exactly when some call is. -/
def SingleFlight {σ : Type} (sys : Sys σ) : Prop :=
  (∀ i j, inFlight (sys.pc i) = true → inFlight (sys.pc j) = true → i = j) ∧
  (sys.running = true ↔ ∃ i, inFlight (sys.pc i) = true)

end scraping

namespace telegram

open gostring

/-- What the HTTP exchange of one `postMessage` call produced: no response at
all (marshalling, request construction or transport error), or a response with
its status code and the decoded `parameters.retry_after` (0 when absent). -/
inductive HttpOutcome where
  | failed
  | response (statusCode : Int) (retryAfter : Int)
deriving DecidableEq, Repr

/-- Wrap-around of a Go `int64` (the type under `time.Duration`). -/
def wrap64 (x : Int) : Int := (x + 2 ^ 63) % 2 ^ 64 - 2 ^ 63

/-- The constant `time.Second` in nanoseconds. -/
def second : Int := 1000000000

/-- The constant `time.Millisecond` in nanoseconds. -/
def millisecond : Int := 1000000

/-- The pair `(time.Duration, error)` returned by `postMessage`, as a function
of the HTTP exchange; `none` is the nil error. -/
def postMessageResult : HttpOutcome → Int × Option String
  | HttpOutcome.failed => (0, some "request failed")
  | HttpOutcome.response statusCode retryAfter =>
    if statusCode = 429 ∧ retryAfter > 0 then (wrap64 (retryAfter * second), some "rate limited")
    else if statusCode < 200 ∨ statusCode ≥ 300 then (0, some "telegram error")
    else (0, none)

/-- The environment of the delivery worker, a state machine over `χ`: the remote
channel answers a post made at time `now` with an HTTP outcome after some elapsed
time; a `time.Sleep(d)` lasts `d` plus some extra time; the worker waits some
time for the next item of the queue. Times are nanoseconds. -/
structure Remote (χ : Type) where
  post : χ → Int → GoString → χ × HttpOutcome × Nat
  oversleep : χ → Int → Int → χ × Nat
  idle : χ → Int → χ × Nat

/-- One call of `postMessage` as seen from outside: the text, when the call
started and finished, and what it returned. -/
structure Attempt where
  text : GoString
  start : Int
  finish : Int
  retryAfter : Int
  err : Option String
deriving DecidableEq, Repr

/-- The struct `Sender` with the clock and the environment: `queue` holds the
segments waiting in the channel, times are nanoseconds since the zero
`time.Time`, `attempts` and `logs` record the calls of `postMessage` and the log
lines so far. -/
structure Sender (χ : Type) where
  queue : List GoString
  minInterval : Int
  lastSentTime : Int
  now : Int
  remote : χ
  attempts : List Attempt
  logs : List String

/-- The constructor `NewSender` at clock time `now`: empty queue, minimum
interval of 1200 ms, zero `lastSentTime`. -/
def NewSender {χ : Type} (now : Int) (remote : χ) : Sender χ :=
  { queue := [], minInterval := 1200 * millisecond, lastSentTime := 0, now := now,
    remote := remote, attempts := [], logs := [] }

/-- The call `time.Until(t)`: the difference `t - now`, saturated to the range
of `time.Duration`. -/
def timeUntil (t now : Int) : Int :=
  if t - now > 2 ^ 63 - 1 then 2 ^ 63 - 1
  else if t - now < -(2 ^ 63) then -(2 ^ 63)
  else t - now

/-- The call `time.Sleep(d)`: returns at once when `d <= 0`, otherwise the clock
advances by at least `d`. -/
def timeSleep {χ : Type} (env : Remote χ) (s : Sender χ) (d : Int) : Sender χ :=
  if d ≤ 0 then s
  else
    { s with
      remote := (env.oversleep s.remote s.now d).1
      now := s.now + d + (env.oversleep s.remote s.now d).2 }

/-- The method `postMessage`: one exchange with the remote channel. Returns the
new state and the pair `(retryAfter, err)`. -/
def postMessage {χ : Type} (env : Remote χ) (s : Sender χ) (text : GoString) :
    Sender χ × Int × Option String :=
  let r := env.post s.remote s.now text
  let res := postMessageResult r.2.1
  ({ s with
      remote := r.1
      now := s.now + r.2.2
      attempts := s.attempts ++ [⟨text, s.now, s.now + r.2.2, res.1, res.2⟩] },
    res.1, res.2)

/-- The method `sendWithRateLimit`. -/
def sendWithRateLimit {χ : Type} (env : Remote χ) (s : Sender χ) (text : GoString) : Sender χ :=
  let wait := timeUntil (s.lastSentTime + s.minInterval) s.now
  let s1 := if wait > 0 then timeSleep env s wait else s
  let p := postMessage env s1 text
  if p.2.2.isSome then
    if p.2.1 > 0 then
      let s3 := { p.1 with logs := p.1.logs ++ ["Telegram rate limit hit. Retrying"] }
      let s4 := timeSleep env s3 p.2.1
      let q := postMessage env s4 text
      if q.2.2.isSome then
        { q.1 with logs := q.1.logs ++ ["Telegram retry failed"] }
      else
        { q.1 with
          lastSentTime := q.1.now
          logs := q.1.logs ++ ["Telegram alert sent successfully (after retry)"] }
    else
      { p.1 with logs := p.1.logs ++ ["Telegram send error"] }
  else
    { p.1 with
      lastSentTime := p.1.now
      logs := p.1.logs ++ ["Telegram alert sent successfully"] }

/-- One iteration of `for msg := range s.queue` in `worker`: the head of the
queue is received after some idle time and sent. -/
def workerStep {χ : Type} (env : Remote χ) (s : Sender χ) : Sender χ :=
  match s.queue with
  | [] => s
  | msg :: rest =>
    sendWithRateLimit env
      { s with
        queue := rest
        remote := (env.idle s.remote s.now).1
        now := s.now + (env.idle s.remote s.now).2 } msg

/-- The worker run for `n` iterations. -/
def workerRun {χ : Type} (env : Remote χ) : Nat → Sender χ → Sender χ
  | 0, s => s
  | n + 1, s => workerRun env n (workerStep env s)

/-- A remote channel for concrete runs. Its state is the list of HTTP outcomes
still to be given, one per post (once the list is used up every post gets
status 200); every post takes 50 ms, sleeps are exact and the queue is never
waited for. -/
def scriptedRemote : Remote (List HttpOutcome) where
  post := fun script _ _ =>
    match script with
    | [] => ([], HttpOutcome.response 200 0, 50000000)
    | o :: rest => (rest, o, 50000000)
  oversleep := fun script _ _ => (script, 0)
  idle := fun script _ => (script, 0)

/-- The state in which `sendWithRateLimit` makes its first attempt. -/
def afterWait {χ : Type} (env : Remote χ) (s : Sender χ) : Sender χ :=
  if timeUntil (s.lastSentTime + s.minInterval) s.now > 0 then
    timeSleep env s (timeUntil (s.lastSentTime + s.minInterval) s.now)
  else s

/-- The state in which `sendWithRateLimit` makes its second attempt. -/
def beforeRetry {χ : Type} (env : Remote χ) (s : Sender χ) (text : GoString) : Sender χ :=
  timeSleep env
    { (postMessage env (afterWait env s) text).1 with
      logs := (postMessage env (afterWait env s) text).1.logs
        ++ ["Telegram rate limit hit. Retrying"] }
    (postMessage env (afterWait env s) text).2.1

/-- Spacing of two attempts: when the earlier one returned a nil error, the
later one starts at least `m` after the earlier one finished. -/
def SpacedAfterSuccess (m : Int) (a b : Attempt) : Prop :=
  a.err = none → a.finish + m ≤ b.start

/-- Invariant of the delivery worker: the minimum interval is the 1200 ms set by
`NewSender`, `lastSentTime` is a past reading of the clock, no successful
attempt finished after `lastSentTime`, and every attempt starts at least the
minimum interval after every earlier successful attempt finished. -/
def WorkerInv {χ : Type} (s : Sender χ) : Prop :=
  s.minInterval = 1200 * millisecond ∧ s.lastSentTime ≤ s.now ∧
  (∀ a ∈ s.attempts, a.err = none → a.finish ≤ s.lastSentTime) ∧
  s.attempts.Pairwise (SpacedAfterSuccess s.minInterval)

/-- The capacity of the channel made by `NewSender`: `make(chan string, 100)`. -/
def queueCapacity : Nat := 100

/-- The sends `s.queue <- part` of `SendAlert`, in order, on a channel of the
given capacity that nobody receives from: a send goes through while the buffer
has room, and the first send that finds the buffer full blocks. Returns the
buffer and the parts not yet sent (the head of which the caller is blocked on);
the call has returned exactly when no part is left. -/
def sendAll (capacity : Nat) : List GoString → List GoString → List GoString × List GoString
  | queue, [] => (queue, [])
  | queue, part :: rest =>
    if queue.length < capacity then sendAll capacity (queue ++ [part]) rest
    else (queue, part :: rest)

/-- The method `SendAlert` on a queue that the worker is not draining: the
message is formatted, split with limit 4096 and sent part by part. -/
def SendAlert (formatMessage : model.ScrapedProject → GoString) (queue : List GoString)
    (project : model.ScrapedProject) : Option (List GoString × List GoString) :=
  (splitMessage (formatMessage project) 4096).map (sendAll queueCapacity queue)

end telegram

namespace common

open gostring

/-- The bytes of a string literal of the source (its UTF-8 encoding). -/
def bytesOf (s : String) : GoString := runesToString (s.data.map Char.toNat)

/-- A Go floating-point value, reduced to the results of the two conversions the
code applies to it: `int64(v)` and `strconv.FormatFloat(v, 'f', 0, 64)`. -/
structure GoFloat where
  toInt64 : Int
  formatted : GoString

/-- A value behind the interface `jsonNumber` (such as `json.Number`), given by
what its methods return: `Int64()` and `Float64()` (`none` on error) and
`String()`. -/
structure jsonNumber where
  Int64 : Option Int
  Float64 : Option GoFloat
  Text : GoString

/-- A Go value of type `any`, by dynamic type; `slice` is `[]any`, `object` is
`map[string]any` (as a list of entries), `other` any further type. -/
inductive GoValue where
  | null
  | other
  | string (s : GoString)
  | number (n : jsonNumber)
  | float64 (f : GoFloat)
  | float32 (f : GoFloat)
  | int (v : Int)
  | int64 (v : Int)
  | int32 (v : Int)
  | slice (items : List GoValue)
  | object (fields : List (GoString × GoValue))

/-- The decimal digits of a natural number, most significant first, as bytes;
`fuel` bounds the number of digits. -/
def digitsOf : Nat → Nat → List Nat → List Nat
  | 0, _, acc => acc
  | fuel + 1, n, acc =>
    if n < 10 then (0x30 + n) :: acc
    else digitsOf fuel (n / 10) ((0x30 + n % 10) :: acc)

/-- The call `strconv.FormatInt(v, 10)` (and `strconv.Itoa`). -/
def FormatInt (v : Int) : GoString :=
  if v < 0 then 0x2D :: digitsOf (v.natAbs + 1) v.natAbs []
  else digitsOf (v.natAbs + 1) v.natAbs []

/-- One more decimal digit read by `strconv.ParseUint`: the value so far times
10 plus the digit, or failure on another byte. -/
def digitStep (acc : Option Nat) (c : Nat) : Option Nat :=
  match acc with
  | some n => if 0x30 ≤ c ∧ c ≤ 0x39 then some (10 * n + (c - 0x30)) else none
  | none => none

/-- The value of a non-empty string of decimal digits; `none` for an empty
string or one with another byte (`strconv.ParseUint` in base 10, before the
range check). -/
def parseDigits : GoString → Option Nat
  | [] => none
  | b :: rest => (b :: rest).foldl digitStep (some 0)

/-- The call `strconv.ParseInt(s, 10, 64)`; `none` when it returns an error
(syntax or range). -/
def ParseInt (s : GoString) : Option Int :=
  match s with
  | [] => none
  | c :: rest =>
    match parseDigits (if c = 0x2B ∨ c = 0x2D then rest else c :: rest) with
    | none => none
    | some un =>
      if c = 0x2D then (if un > 2 ^ 63 then none else some (-(un : Int)))
      else (if un ≥ 2 ^ 63 then none else some (un : Int))

/-- The function `ToInt64` of `common.go`. -/
def ToInt64 : GoValue → Int
  | GoValue.float64 f => f.toInt64
  | GoValue.float32 f => f.toInt64
  | GoValue.int v => v
  | GoValue.int64 v => v
  | GoValue.int32 v => v
  | GoValue.number n =>
    match n.Int64 with
    | some i => i
    | none =>
      match n.Float64 with
      | some f => f.toInt64
      | none => 0
  | GoValue.string s =>
    match ParseInt s with
    | some i => i
    | none => 0
  | _ => 0

/-- The function `ToString` of `common.go`. -/
def ToString : GoValue → GoString
  | GoValue.string s => s
  | GoValue.number n => n.Text
  | GoValue.float64 f => f.formatted
  | GoValue.int64 v => FormatInt v
  | GoValue.int v => FormatInt v
  | _ => []

/-- The loop `for i := first; i < n; i += 3` of `formatWithCommas`, collecting
`input[i:i+3]`; `fuel` bounds the number of iterations (`n` is enough). -/
def commaLoop (input : GoString) : Nat → Nat → List GoString → List GoString
  | 0, _, parts => parts
  | fuel + 1, i, parts =>
    if i < input.length then
      commaLoop input fuel (i + 3) (parts ++ [(input.drop i).take 3])
    else parts

/-- The call `strings.Join(parts, ",")`. -/
def joinCommas : List GoString → GoString
  | [] => []
  | [p] => p
  | p :: q :: rest => p ++ 0x2C :: joinCommas (q :: rest)

/-- The function `formatWithCommas` of `common.go`. -/
def formatWithCommas (input : GoString) : GoString :=
  if input.length ≤ 3 then input
  else
    let neg := input.head? = some 0x2D
    let input1 := if neg then input.drop 1 else input
    let n := input1.length
    let first := if n % 3 = 0 then 3 else n % 3
    let parts := commaLoop input1 n first [input1.take first]
    let result := joinCommas parts
    if neg then 0x2D :: result else result

/-- The function `formatToman` of `common.go`. -/
def formatToman (amount : Int) : GoString :=
  formatWithCommas (FormatInt amount)

/-- The function `FormatBudgetText` of `common.go`. -/
def FormatBudgetText (amountMin amountMax : Int) : GoString :=
  if amountMin > 0 ∧ amountMax > 0 then
    bytesOf "از " ++ formatToman amountMin ++ bytesOf " تا " ++ formatToman amountMax
      ++ bytesOf " تومان"
  else if amountMax > 0 then
    bytesOf "تا " ++ formatToman amountMax ++ bytesOf " تومان"
  else if amountMin > 0 then
    bytesOf "از " ++ formatToman amountMin ++ bytesOf " تومان"
  else bytesOf "نامشخص"

/-- The map index expression `m[key]`: the entry, or nil when the key is
absent. -/
def mapGet (m : List (GoString × GoValue)) (key : GoString) : GoValue :=
  match m.find? (fun e => e.1 == key) with
  | some e => e.2
  | none => GoValue.null

/-- The comma-ok form `v, ok := m[key]`: whether the key is present. -/
def mapHas (m : List (GoString × GoValue)) (key : GoString) : Bool :=
  (m.find? (fun e => e.1 == key)).isSome

end common

namespace providers

/-- What fetching and decoding one page gives: an error (request, transport,
status or decoding error), or the decoded payload. -/
inductive Fetched (α : Type) where
  | failed (err : String)
  | ok (payload : α)

/-- The pages `2..lastPage` for which the scrapers start a goroutine. -/
def pagesFrom2 (lastPage : Int) : List Nat :=
  (List.range (lastPage.toNat - 1)).map (fun i => i + 2)

end providers

namespace karlancer

open gostring common providers

/-- An element of the field `Skills` of `karlancerProject`. -/
structure karlancerSkill where
  Name : GoString
  Title : GoString

/-- The struct `karlancerProject`. -/
structure karlancerProject where
  ID : GoValue
  UUID : GoValue
  AltID : GoValue
  Title : GoString
  Description : GoString
  MinBudget : GoValue
  MaxBudget : GoValue
  BudgetFrom : GoValue
  BudgetTo : GoValue
  AmountMin : GoValue
  AmountMax : GoValue
  PriceMin : GoValue
  PriceMax : GoValue
  URL : GoString
  PublishedAt : GoString
  ApprovedAt : GoString
  ExpiredAt : GoString
  ExpiredAlt : GoString
  BidsCount : Option Int
  BidsAlt : Option Int
  Skills : List karlancerSkill

/-- The struct behind `karlancerResponse.Data`. -/
structure karlancerData where
  CurrentPage : Int
  LastPage : Int
  Data : List karlancerProject

/-- The function `pickID`. -/
def pickID : List GoValue → GoString
  | [] => []
  | v :: rest => if ToString v ≠ [] then ToString v else pickID rest

/-- The function `pickTitle`. -/
def pickTitle (title : GoString) : GoString :=
  if title = [] then bytesOf "بدون عنوان" else title

/-- The function `pickString`. -/
def pickString : List GoString → GoString
  | [] => []
  | v :: rest => if v ≠ [] then v else pickString rest

/-- The function `pickIntPtr`. -/
def pickIntPtr : List (Option Int) → Option Int
  | [] => none
  | v :: rest => if v.isSome then v else pickIntPtr rest

/-- The function `collectSkills`. -/
def collectSkills (skills : List karlancerSkill) : List GoString :=
  skills.filterMap (fun skill =>
    let value := if skill.Name = [] then skill.Title else skill.Name
    if value ≠ [] then some value else none)

/-- The lower bound computed in the loop of `fetchPage`: `min_budget`, then
`budget_from`, `amount_min`, `price_min`, each tried while the value is 0. -/
def amountMinOf (p : karlancerProject) : Int :=
  let a0 := ToInt64 p.MinBudget
  let a1 := if a0 = 0 then ToInt64 p.BudgetFrom else a0
  let a2 := if a1 = 0 then ToInt64 p.AmountMin else a1
  if a2 = 0 then ToInt64 p.PriceMin else a2

/-- The upper bound computed in the loop of `fetchPage`: `max_budget`, then
`budget_to`, `amount_max`, `price_max`, each tried while the value is 0. -/
def amountMaxOf (p : karlancerProject) : Int :=
  let a0 := ToInt64 p.MaxBudget
  let a1 := if a0 = 0 then ToInt64 p.BudgetTo else a0
  let a2 := if a1 = 0 then ToInt64 p.AmountMax else a1
  if a2 = 0 then ToInt64 p.PriceMax else a2

/-- One iteration of `for _, p := range data.Data` in `fetchPage`: the listing
appended, or `none` when the iteration ends with `continue`. -/
def fetchPageItem (p : karlancerProject) : Option model.ScrapedProject :=
  let id := pickID [p.ID, p.UUID, p.AltID]
  if id = [] then none
  else
    let amountMin := amountMinOf p
    let amountMax := amountMaxOf p
    if !model.IsAboveThreshold amountMin amountMax then none
    else
      let linkSlug := if p.URL = [] then id else p.URL
      some
        { Source := bytesOf "karlancer"
          ExternalID := id
          Title := pickTitle p.Title
          Link := bytesOf "https://www.karlancer.com/projects/" ++ linkSlug
          BudgetText := FormatBudgetText amountMin amountMax
          AmountMin := amountMin
          AmountMax := amountMax
          Description := p.Description
          ApprovedAt := pickString [p.PublishedAt, p.ApprovedAt]
          BiddingClosedAt := pickString [p.ExpiredAt, p.ExpiredAlt]
          BidsCount := pickIntPtr [p.BidsCount, p.BidsAlt]
          Skills := collectSkills p.Skills }

/-- The method `fetchPage`, given what fetching and decoding each page gives
(`none` for a response without `data`): the triple `(projects, lastPage, err)`. -/
def fetchPage (fetch : Nat → Fetched (Option karlancerData)) (page : Nat) :
    List model.ScrapedProject × Int × Option String :=
  match fetch page with
  | Fetched.failed err => ([], 0, some err)
  | Fetched.ok none => ([], 0, none)
  | Fetched.ok (some data) => (data.Data.filterMap fetchPageItem, data.LastPage, none)

/-- The result of `Scrape` with the pages it fetched, in order. -/
structure ScrapeResult where
  projects : List model.ScrapedProject
  err : Option String
  fetched : List Nat

/-- The goroutine started for one page in `Scrape`, run on the shared state
`(projects, err)` where `err` is the first error the group has seen: a failed
fetch returns its error to the group, a successful one appends its items. -/
def pageTask (fetch : Nat → Fetched (Option karlancerData))
    (acc : List model.ScrapedProject × Option String) (page : Nat) :
    List model.ScrapedProject × Option String :=
  if (fetchPage fetch page).2.2.isSome then
    (acc.1, if acc.2.isSome then acc.2 else (fetchPage fetch page).2.2)
  else (acc.1 ++ (fetchPage fetch page).1, acc.2)

/-- The method `KarlancerScraper.Scrape`. The argument `order` lists the pages
`2..lastPage` in the order in which their goroutines finish; `group.Wait()`
returns the first error returned by a goroutine. -/
def Scrape (fetch : Nat → Fetched (Option karlancerData)) (order : List Nat) : ScrapeResult :=
  let first := fetchPage fetch 1
  if first.2.2.isSome then { projects := [], err := first.2.2, fetched := [1] }
  else if first.2.1 ≤ 1 then { projects := first.1, err := none, fetched := [1] }
  else
    { projects := (order.foldl (pageTask fetch) (first.1, none)).1
      err := (order.foldl (pageTask fetch) (first.1, none)).2
      fetched := 1 :: order }

end karlancer

namespace ponisha

open gostring common providers

/-- The function `extractSkillNames`. -/
def extractSkillNames (raw : GoValue) : List GoString :=
  match raw with
  | GoValue.slice items =>
    items.filterMap (fun item =>
      match item with
      | GoValue.object m =>
        if ToString (mapGet m (bytesOf "name")) ≠ [] then
          some (ToString (mapGet m (bytesOf "name")))
        else none
      | _ => none)
  | _ => []

/-- The function `parseProject`: the listing when the second result is `true`,
`none` when it is `false`. -/
def parseProject (item : GoValue) : Option model.ScrapedProject :=
  match item with
  | GoValue.object p =>
    let id := ToString (mapGet p (bytesOf "id"))
    if id = [] then none
    else
      let slug := ToString (mapGet p (bytesOf "slug"))
      let amountMin := ToInt64 (mapGet p (bytesOf "amount_min"))
      let amountMax := ToInt64 (mapGet p (bytesOf "amount_max"))
      if !model.IsAboveThreshold amountMin amountMax then none
      else
        some
          { Source := bytesOf "ponisha"
            ExternalID := id
            Title := ToString (mapGet p (bytesOf "title"))
            Link := bytesOf "https://ponisha.ir/project/" ++ id ++ bytesOf "/" ++ slug
            BudgetText := FormatBudgetText amountMin amountMax
            AmountMin := amountMin
            AmountMax := amountMax
            Description := ToString (mapGet p (bytesOf "description"))
            ApprovedAt := ToString (mapGet p (bytesOf "approved_at"))
            BiddingClosedAt := ToString (mapGet p (bytesOf "bidding_closed_at"))
            BidsCount :=
              if mapHas p (bytesOf "project_bids_count") then
                some (ToInt64 (mapGet p (bytesOf "project_bids_count")))
              else none
            Skills := extractSkillNames (mapGet p (bytesOf "skills")) }
  | _ => none

/-- The part of a decoded page that `extractPonishaProjects` uses once the
projects query and its `state.data` are found: the total page count read by
`readTotalPages` and the value `data["data"]` when it is a `[]any`. -/
structure ponishaData where
  totalPages : Int
  list : Option (List GoValue)

/-- The method `fetchPage` with `extractPonishaProjects`, given what fetching
and decoding each page gives (`none` when there is no payload, no projects query
or no `state.data`): the triple `(projects, totalPages, err)`. -/
def fetchPage (fetch : Nat → Fetched (Option ponishaData)) (page : Nat) :
    List model.ScrapedProject × Int × Option String :=
  match fetch page with
  | Fetched.failed err => ([], 0, some err)
  | Fetched.ok none => ([], 0, none)
  | Fetched.ok (some data) =>
    match data.list with
    | none => ([], data.totalPages, none)
    | some list => (list.filterMap parseProject, data.totalPages, none)

/-- The result of `Scrape` with the pages it fetched, in order. -/
structure ScrapeResult where
  projects : List model.ScrapedProject
  err : Option String
  fetched : List Nat

/-- The goroutine started for one page in `fetchRemainingPages`, run on the
shared slice `projects`: a failed fetch is logged and skipped, a successful one
appends its items. -/
def pageTask (fetch : Nat → Fetched (Option ponishaData))
    (projects : List model.ScrapedProject) (page : Nat) : List model.ScrapedProject :=
  if (fetchPage fetch page).2.2.isSome then projects
  else projects ++ (fetchPage fetch page).1

/-- The method `fetchRemainingPages`. The argument `order` lists the pages
`2..totalPages` in the order in which their goroutines finish. The error of
`group.Wait()` is discarded and nil is returned. -/
def fetchRemainingPages (fetch : Nat → Fetched (Option ponishaData)) (order : List Nat)
    (seed : List model.ScrapedProject) : List model.ScrapedProject × Option String :=
  (order.foldl (pageTask fetch) seed, none)

/-- The method `PonishaScraper.Scrape`. -/
def Scrape (fetch : Nat → Fetched (Option ponishaData)) (order : List Nat) : ScrapeResult :=
  let first := fetchPage fetch 1
  if first.2.2.isSome then { projects := [], err := first.2.2, fetched := [1] }
  else if first.2.1 ≤ 1 then { projects := first.1, err := none, fetched := [1] }
  else
    { projects := (fetchRemainingPages fetch order first.1).1
      err := (fetchRemainingPages fetch order first.1).2
      fetched := 1 :: order }

end ponisha

namespace providers

/-- The first non-zero value of a list of candidates, 0 when there is none. -/
def firstNonZero (candidates : List Int) : Int :=
  (candidates.find? (fun v => decide (v ≠ 0))).getD 0

/-- The first non-empty string of a list of candidates, the empty string when
there is none. -/
def firstNonEmpty (candidates : List gostring.GoString) : gostring.GoString :=
  (candidates.find? (fun v => decide (v ≠ []))).getD []

end providers

/-! ## Lemmas -/

namespace gostring

theorem decodeRune_encodeRune (r : Nat) (rest : GoString) (h : validRune r = true) :
    decodeRune (encodeRune r ++ rest) = (r, (encodeRune r).length) := by
  simp only [validRune, Bool.and_eq_true, decide_eq_true_eq, Bool.not_eq_true',
    Bool.and_eq_false_iff, decide_eq_false_iff_not] at h
  unfold encodeRune
  by_cases h1 : r ≤ 0x7F
  · have : r < 0x80 := by omega
    simp [h1, decodeRune, this]
  · by_cases h2 : r ≤ 0x7FF
    · simp only [h1, h2, if_true, if_false, List.cons_append, List.nil_append, decodeRune, isCont]
      have e1 : ¬ (0xC0 + r / 64 < 0x80) := by omega
      have e2 : 0xC0 ≤ 0xC0 + r / 64 ∧ 0xC0 + r / 64 < 0xE0 := by omega
      have e3 : 0x80 ≤ 0x80 + r % 64 ∧ 0x80 + r % 64 ≤ 0xBF := by omega
      have e4 : (0xC0 + r / 64) % 32 * 64 + (0x80 + r % 64) % 64 = r := by omega
      simp only [e1, e2, e3, e4, if_true, if_false, and_self, decide_True, Bool.and_self]
      have e5 : 0x7F < r := by omega
      simp [e5]
    · have h3 : ¬ (0x10FFFF < r ∨ (0xD800 ≤ r ∧ r ≤ 0xDFFF)) := by omega
      by_cases h4 : r ≤ 0xFFFF
      · simp only [h1, h2, h3, h4, if_true, if_false, List.cons_append, List.nil_append,
          decodeRune, isCont]
        have e1 : ¬ (0xE0 + r / 4096 < 0x80) := by omega
        have e2 : ¬ (0xC0 ≤ 0xE0 + r / 4096 ∧ 0xE0 + r / 4096 < 0xE0) := by omega
        have e2b : 0xE0 ≤ 0xE0 + r / 4096 ∧ 0xE0 + r / 4096 < 0xF0 := by omega
        have e3 : 0x80 ≤ 0x80 + r / 64 % 64 ∧ 0x80 + r / 64 % 64 ≤ 0xBF := by omega
        have e3b : 0x80 ≤ 0x80 + r % 64 ∧ 0x80 + r % 64 ≤ 0xBF := by omega
        have e4 : (0xE0 + r / 4096) % 16 * 4096 + (0x80 + r / 64 % 64) % 64 * 64
            + (0x80 + r % 64) % 64 = r := by omega
        simp only [e1, e2, e2b, e3, e3b, e4, if_true, if_false, and_self, decide_True,
          Bool.and_self]
        have e5 : 0x7FF < r ∧ ¬ (0xD800 ≤ r ∧ r ≤ 0xDFFF) := by omega
        simp [e5]
      · simp only [h1, h2, h3, h4, if_true, if_false, List.cons_append, List.nil_append,
          decodeRune, isCont]
        have e1 : ¬ (0xF0 + r / 262144 < 0x80) := by omega
        have e2 : ¬ (0xC0 ≤ 0xF0 + r / 262144 ∧ 0xF0 + r / 262144 < 0xE0) := by omega
        have e2b : ¬ (0xE0 ≤ 0xF0 + r / 262144 ∧ 0xF0 + r / 262144 < 0xF0) := by omega
        have e2c : 0xF0 ≤ 0xF0 + r / 262144 ∧ 0xF0 + r / 262144 < 0xF8 := by omega
        have e3 : 0x80 ≤ 0x80 + r / 4096 % 64 ∧ 0x80 + r / 4096 % 64 ≤ 0xBF := by omega
        have e3a : 0x80 ≤ 0x80 + r / 64 % 64 ∧ 0x80 + r / 64 % 64 ≤ 0xBF := by omega
        have e3b : 0x80 ≤ 0x80 + r % 64 ∧ 0x80 + r % 64 ≤ 0xBF := by omega
        have e4 : (0xF0 + r / 262144) % 8 * 262144 + (0x80 + r / 4096 % 64) % 64 * 4096
            + (0x80 + r / 64 % 64) % 64 * 64 + (0x80 + r % 64) % 64 = r := by omega
        simp only [e1, e2, e2b, e2c, e3, e3a, e3b, e4, if_true, if_false, and_self, decide_True,
          Bool.and_self]
        have e5 : 0xFFFF < r ∧ r ≤ 0x10FFFF := by omega
        simp [e5]

theorem encodeRune_length_pos (r : Nat) : 0 < (encodeRune r).length := by
  unfold encodeRune
  split_ifs <;> simp

theorem stringToRunesAux_skip (k : Nat) (pre rest : GoString) (h : pre.length = k) :
    stringToRunesAux k (pre ++ rest) = stringToRunesAux 0 rest := by
  induction pre generalizing k with
  | nil => simp at h; subst h; rfl
  | cons b pre ih =>
    cases k with
    | zero => simp at h
    | succ k =>
      simp only [List.length_cons, Nat.add_right_cancel_iff] at h
      simp only [List.cons_append, stringToRunesAux]
      exact ih k h

theorem stringToRunesAux_encodeRune (r : Nat) (rest : GoString) (h : validRune r = true) :
    stringToRunesAux 0 (encodeRune r ++ rest) = r :: stringToRunesAux 0 rest := by
  have hd := decodeRune_encodeRune r rest h
  have hpos := encodeRune_length_pos r
  cases he : encodeRune r with
  | nil => simp [he] at hpos
  | cons b tl =>
    rw [he] at hd
    simp only [List.cons_append] at hd ⊢
    simp only [stringToRunesAux, hd, List.length_cons, Nat.add_sub_cancel]
    rw [stringToRunesAux_skip tl.length tl rest rfl]

theorem stringToRunes_runesToString (runes : List Nat) (h : ∀ r ∈ runes, validRune r = true) :
    stringToRunes (runesToString runes) = runes := by
  induction runes with
  | nil => rfl
  | cons r rs ih =>
    have hr : validRune r = true := h r (List.mem_cons_self _ _)
    have hrs : ∀ x ∈ rs, validRune x = true := fun x hx => h x (List.mem_cons_of_mem _ hx)
    have := stringToRunesAux_encodeRune r (runesToString rs) hr
    simp only [stringToRunes, runesToString, List.map_cons, List.flatten_cons] at ih this ⊢
    rw [this, ih hrs]

theorem validRune_decodeRune (s : GoString) : validRune (decodeRune s).1 = true := by
  unfold decodeRune
  split
  · decide
  · rename_i b0 rest
    simp only []
    repeat' split
    all_goals first
      | decide
      | (simp only [validRune, Bool.and_eq_true, decide_eq_true_eq, Bool.not_eq_true',
          Bool.and_eq_false_iff, decide_eq_false_iff_not]; omega)

theorem validRune_stringToRunesAux (s : GoString) : ∀ (k : Nat), ∀ r ∈ stringToRunesAux k s, validRune r = true := by
  induction s with
  | nil => intro k r hr; simp [stringToRunesAux] at hr
  | cons b rest ih =>
    intro k r hr
    cases k with
    | zero =>
      simp only [stringToRunesAux, List.mem_cons] at hr
      rcases hr with hr | hr
      · rw [hr]; exact validRune_decodeRune _
      · exact ih _ r hr
    | succ k =>
      simp only [stringToRunesAux] at hr
      exact ih _ r hr

theorem validRune_stringToRunes (s : GoString) : ∀ r ∈ stringToRunes s, validRune r = true :=
  validRune_stringToRunesAux s 0

end gostring

namespace telegram

open gostring

theorem numParts_of_ge (n limit start : Nat) (hl : 0 < limit) (h : n ≤ start) :
    numParts n limit start = 0 := by
  unfold numParts
  apply Nat.div_eq_of_lt
  omega

theorem numParts_of_lt (n limit start : Nat) (hl : 0 < limit) (h : start < n) :
    numParts n limit start = numParts n limit (start + limit) + 1 := by
  unfold numParts
  by_cases hc : limit ≤ n - start
  · have : n - start + limit - 1 = (n - (start + limit) + limit - 1) + limit := by omega
    rw [this, Nat.add_div_right _ hl]
  · have e1 : n - start + limit - 1 = (n - start - 1) + limit := by omega
    have e2 : n - (start + limit) + limit - 1 = limit - 1 := by omega
    rw [e1, e2, Nat.add_div_right _ hl, Nat.div_eq_of_lt (by omega : n - start - 1 < limit),
      Nat.div_eq_of_lt (by omega : limit - 1 < limit)]

theorem sliceRunes_eq_chunkAt (runes : List Nat) (limit start : Nat) :
    sliceRunes runes start (if start + limit > runes.length then runes.length else start + limit)
      = chunkAt runes limit start 0 := by
  unfold sliceRunes chunkAt
  simp only [Nat.zero_mul, Nat.add_zero]
  split_ifs with h
  · rw [List.take_of_length_le (by simp), List.take_of_length_le (by simp; omega)]
  · simp

theorem chunkAt_succ (runes : List Nat) (limit start j : Nat) :
    chunkAt runes limit start (j + 1) = chunkAt runes limit (start + limit) j := by
  unfold chunkAt
  congr 2
  rw [Nat.succ_mul]; omega

theorem splitLoop_eq (runes : List Nat) (limit : Nat) (hl : 0 < limit) :
    ∀ (fuel start : Nat) (parts : List GoString), runes.length - start ≤ fuel →
      splitLoop runes limit fuel start parts
        = some (parts ++ (List.range (numParts runes.length limit start)).map
            (fun j => runesToString (chunkAt runes limit start j))) := by
  intro fuel
  induction fuel with
  | zero =>
    intro start parts h
    have hge : runes.length ≤ start := by omega
    simp [splitLoop, numParts_of_ge _ _ _ hl hge, Nat.not_lt.mpr hge]
  | succ fuel ih =>
    intro start parts h
    by_cases hlt : start < runes.length
    · simp only [splitLoop, hlt, if_true]
      rw [ih (start + limit) _ (by omega), sliceRunes_eq_chunkAt, numParts_of_lt _ _ _ hl hlt,
        List.range_succ_eq_map]
      simp only [List.map_cons, List.map_map, List.append_assoc, List.singleton_append]
      congr 3
      apply List.map_congr_left
      intro j _
      simp [Function.comp, chunkAt_succ]
    · have hge : runes.length ≤ start := by omega
      simp [splitLoop, numParts_of_ge _ _ _ hl hge, hlt]

theorem chunks_flatten (runes : List Nat) (limit : Nat) (hl : 0 < limit) :
    ∀ (m start : Nat), runes.length - start ≤ m →
      ((List.range (numParts runes.length limit start)).map (chunkAt runes limit start)).flatten
        = runes.drop start := by
  intro m
  induction m with
  | zero =>
    intro start h
    have hge : runes.length ≤ start := by omega
    simp [numParts_of_ge _ _ _ hl hge, List.drop_eq_nil_of_le hge]
  | succ m ih =>
    intro start h
    by_cases hlt : start < runes.length
    · rw [numParts_of_lt _ _ _ hl hlt, List.range_succ_eq_map]
      simp only [List.map_cons, List.map_map, List.flatten_cons]
      have : (chunkAt runes limit start ∘ Nat.succ) = chunkAt runes limit (start + limit) := by
        funext j
        simp [Function.comp, chunkAt_succ]
      rw [this, ih (start + limit) (by omega)]
      simp only [chunkAt, Nat.zero_mul, Nat.add_zero]
      rw [← List.drop_drop]
      exact List.take_append_drop _ _
    · have hge : runes.length ≤ start := by omega
      simp [numParts_of_ge _ _ _ hl hge, List.drop_eq_nil_of_le hge]

theorem chunkAt_length (runes : List Nat) (limit start j : Nat) :
    (chunkAt runes limit start j).length = min limit (runes.length - (start + j * limit)) := by
  simp [chunkAt]

theorem chunkAt_valid (runes : List Nat) (limit start j : Nat)
    (h : ∀ r ∈ runes, validRune r = true) : ∀ r ∈ chunkAt runes limit start j, validRune r = true := by
  intro r hr
  exact h r (List.mem_of_mem_drop (List.mem_of_mem_take hr))

theorem lt_numParts_iff (n limit j : Nat) (hl : 0 < limit) :
    j < numParts n limit 0 ↔ j * limit < n := by
  unfold numParts
  rw [Nat.lt_iff_add_one_le, Nat.le_div_iff_mul_le hl, Nat.succ_mul]
  generalize j * limit = t
  omega

theorem splitMessage_short (message : GoString) (limit : Nat)
    (h : runeCount message ≤ limit) : splitMessage message limit = some [message] := by
  unfold runeCount at h
  simp [splitMessage, h]

theorem splitMessage_long (message : GoString) (limit : Nat) (hl : 0 < limit)
    (h : limit < runeCount message) :
    splitMessage message limit
      = some ((List.range (numParts (runeCount message) limit 0)).map
          (fun j => runesToString (chunkAt (stringToRunes message) limit 0 j))) := by
  unfold runeCount at h ⊢
  simp only [splitMessage, Nat.not_le.mpr h, if_false]
  rw [splitLoop_eq _ _ hl _ _ _ (by omega)]
  simp

theorem runeCount_chunk (message : GoString) (limit j : Nat) :
    runeCount (runesToString (chunkAt (stringToRunes message) limit 0 j))
      = min limit (runeCount message - j * limit) := by
  unfold runeCount
  rw [stringToRunes_runesToString _
    (chunkAt_valid _ _ _ _ (validRune_stringToRunes message)), chunkAt_length]
  simp

theorem splitMessage_runeCounts (message : GoString) (limit : Nat) (hl : 0 < limit)
    (h : limit < runeCount message) :
    ∃ parts, splitMessage message limit = some parts ∧
      parts.length = (runeCount message + limit - 1) / limit ∧
      ∀ i, i < parts.length →
        (parts.map runeCount)[i]? = some (min limit (runeCount message - i * limit)) ∧
        i * limit < runeCount message := by
  refine ⟨_, splitMessage_long message limit hl h, ?_, ?_⟩
  · simp [numParts]
  · intro i hi
    simp only [List.length_map, List.length_range] at hi
    refine ⟨?_, (lt_numParts_iff _ _ _ hl).mp hi⟩
    rw [List.map_map, List.getElem?_map, List.getElem?_range hi]
    simp [Function.comp, runeCount_chunk]

theorem runeCount_replicate_ascii (k : Nat) : runeCount (List.replicate k 0x41) = k := by
  unfold runeCount stringToRunes
  induction k with
  | zero => rfl
  | succ k ih =>
    simp only [List.replicate_succ, stringToRunesAux, decodeRune, List.length_cons]
    simpa using ih

end telegram

namespace scraping

theorem processProject_effects {σ : Type} (repo : ProjectRepository σ) (s : LoopState σ)
    (p : model.ScrapedProject) :
    (processProject repo s p).effects = s.effects ++ listingEffects repo s.store p := by
  unfold listingEffects processProject
  by_cases ha : isAboveThreshold p = true
  · simp only [ha, Bool.not_true, Bool.false_eq_true, if_false]
    split_ifs <;> simp
  · simp [ha]

theorem processProject_store {σ : Type} (repo : ProjectRepository σ) (s : LoopState σ)
    (p : model.ScrapedProject) :
    (processProject repo s p).store = storeAfter repo s.store p := by
  unfold storeAfter processProject
  by_cases ha : isAboveThreshold p = true
  · simp only [ha, Bool.not_true, Bool.false_eq_true, if_false]
    split_ifs <;> simp
  · simp [ha]

theorem processBatch_effects {σ : Type} (repo : ProjectRepository σ)
    (batch : List model.ScrapedProject) : ∀ s : LoopState σ,
    (processBatch repo s batch).effects = s.effects ++ (batchSegments repo s.store batch).flatten := by
  induction batch with
  | nil => intro s; simp [processBatch, batchSegments]
  | cons p ps ih =>
    intro s
    have h := ih (processProject repo s p)
    simp only [processBatch, List.foldl_cons] at h ⊢
    rw [h, processProject_effects, processProject_store]
    simp [batchSegments]

theorem processBatch_store {σ : Type} (repo : ProjectRepository σ)
    (batch : List model.ScrapedProject) : ∀ s : LoopState σ,
    (processBatch repo s batch).store = storeAfterBatch repo s.store batch := by
  induction batch with
  | nil => intro s; rfl
  | cons p ps ih =>
    intro s
    have h := ih (processProject repo s p)
    simp only [processBatch, List.foldl_cons, storeAfterBatch] at h ⊢
    rw [h, processProject_store]

theorem batchSegments_length {σ : Type} (repo : ProjectRepository σ)
    (batch : List model.ScrapedProject) : ∀ store : σ,
    (batchSegments repo store batch).length = batch.length := by
  induction batch with
  | nil => intro store; rfl
  | cons p ps ih => intro store; simp [batchSegments, ih]

theorem batchSegments_getElem? {σ : Type} (repo : ProjectRepository σ)
    (batch : List model.ScrapedProject) : ∀ (store : σ) (i : Nat) (p : model.ScrapedProject),
    batch[i]? = some p →
    (batchSegments repo store batch)[i]?
      = some (listingEffects repo (storeAfterBatch repo store (batch.take i)) p) := by
  induction batch with
  | nil => intro store i p h; simp at h
  | cons q qs ih =>
    intro store i p h
    cases i with
    | zero =>
      simp only [List.getElem?_cons_zero, Option.some.injEq] at h
      subst h
      simp [batchSegments, storeAfterBatch]
    | succ i =>
      simp only [List.getElem?_cons_succ] at h
      simp only [batchSegments, List.getElem?_cons_succ, List.take_succ_cons, storeAfterBatch,
        List.foldl_cons]
      exact ih _ i p h

theorem listingEffects_below {σ : Type} (repo : ProjectRepository σ) (store : σ)
    (p : model.ScrapedProject) (h : isAboveThreshold p = false) :
    listingEffects repo store p = [] := by
  simp [listingEffects, processProject, h]

theorem listingEffects_above {σ : Type} (repo : ProjectRepository σ) (store : σ)
    (p : model.ScrapedProject) (h : isAboveThreshold p = true) :
    listingEffects repo store p
      = Effect.insert (projectCreateOf p)
          (repo.CreateIfNotExists store (projectCreateOf p)).saved
          (repo.CreateIfNotExists store (projectCreateOf p)).created
          (repo.CreateIfNotExists store (projectCreateOf p)).err
        :: (if (repo.CreateIfNotExists store (projectCreateOf p)).err = none ∧
              (repo.CreateIfNotExists store (projectCreateOf p)).created = true
            then [Effect.alert (telegramProject p
              (repo.CreateIfNotExists store (projectCreateOf p)).saved)]
            else []) := by
  simp only [listingEffects, processProject, h, Bool.not_true, Bool.false_eq_true, if_false]
  cases he : (repo.CreateIfNotExists store (projectCreateOf p)).err with
  | some e => simp
  | none =>
    cases hc : (repo.CreateIfNotExists store (projectCreateOf p)).created <;> simp

theorem alertsOf_append (a b : List Effect) : alertsOf (a ++ b) = alertsOf a ++ alertsOf b := by
  simp [alertsOf, List.filterMap_append]

theorem alertsOf_flatten (segs : List (List Effect)) :
    alertsOf segs.flatten = (segs.map alertsOf).flatten := by
  induction segs with
  | nil => rfl
  | cons a rest ih => simp [alertsOf_append, ih]

theorem mem_batchSegments {σ : Type} (repo : ProjectRepository σ)
    (batch : List model.ScrapedProject) : ∀ (store : σ) (seg : List Effect),
    seg ∈ batchSegments repo store batch →
    ∃ i p, batch[i]? = some p ∧
      seg = listingEffects repo (storeAfterBatch repo store (batch.take i)) p := by
  intro store seg hseg
  obtain ⟨i, hi, rfl⟩ := List.getElem_of_mem hseg
  rw [batchSegments_length] at hi
  refine ⟨i, batch[i], List.getElem?_eq_getElem hi, ?_⟩
  have h := batchSegments_getElem? repo batch store i batch[i] (List.getElem?_eq_getElem hi)
  rw [List.getElem?_eq_getElem (by rw [batchSegments_length]; exact hi)] at h
  exact Option.some.inj h

theorem storeAfterBatch_append {σ : Type} (repo : ProjectRepository σ) (store : σ)
    (a b : List model.ScrapedProject) :
    storeAfterBatch repo store (a ++ b)
      = storeAfterBatch repo (storeAfterBatch repo store a) b := by
  simp [storeAfterBatch, List.foldl_append]

theorem batchSegments_append {σ : Type} (repo : ProjectRepository σ)
    (a b : List model.ScrapedProject) : ∀ store : σ,
    batchSegments repo store (a ++ b)
      = batchSegments repo store a ++ batchSegments repo (storeAfterBatch repo store a) b := by
  induction a with
  | nil => intro store; rfl
  | cons p ps ih =>
    intro store
    have h := ih (storeAfter repo store p)
    simp only [storeAfterBatch] at h
    show batchSegments repo store (p :: (ps ++ b)) = _
    simp only [batchSegments, storeAfterBatch, List.foldl_cons, List.cons_append, h]

theorem processResult_effects {σ : Type} (repo : ProjectRepository σ) (rs : RunState σ)
    (res : result) :
    (processResult repo rs res).effects
      = rs.effects ++ (batchSegments repo rs.store res.projects).flatten := by
  simp only [processResult]
  rw [processBatch_effects]

theorem processResult_store {σ : Type} (repo : ProjectRepository σ) (rs : RunState σ)
    (res : result) :
    (processResult repo rs res).store = storeAfterBatch repo rs.store res.projects := by
  simp only [processResult]
  rw [processBatch_store]

theorem processResults_effects_store {σ : Type} (repo : ProjectRepository σ)
    (results : List result) : ∀ rs : RunState σ,
    (results.foldl (processResult repo) rs).effects
        = rs.effects
          ++ (batchSegments repo rs.store (results.map (fun r => r.projects)).flatten).flatten ∧
    (results.foldl (processResult repo) rs).store
        = storeAfterBatch repo rs.store (results.map (fun r => r.projects)).flatten := by
  induction results with
  | nil => intro rs; simp [batchSegments, storeAfterBatch]
  | cons res rest ih =>
    intro rs
    obtain ⟨h1, h2⟩ := ih (processResult repo rs res)
    simp only [List.foldl_cons, List.map_cons, List.flatten_cons]
    rw [h1, h2, processResult_effects, processResult_store, batchSegments_append,
      storeAfterBatch_append]
    simp

/-- The listings of the scrapers that returned no error, in completion order. -/
theorem scraperTask_projects_flatten (completion : List SiteScraper) :
    ((completion.map scraperTask).map (fun r => r.projects)).flatten
      = ((completion.filter (fun sc => !sc.Scrape.2.isSome)).map (fun sc => sc.Scrape.1)).flatten := by
  induction completion with
  | nil => rfl
  | cons sc rest ih =>
    simp only [List.map_cons, List.flatten_cons, ih, List.filter_cons]
    by_cases h : sc.Scrape.2.isSome = true
    · simp [scraperTask, h]
    · simp [scraperTask, h]

theorem scrape_effects_store {σ : Type} (repo : ProjectRepository σ) (store : σ)
    (completion : List SiteScraper) :
    (scrape repo store completion).1.effects
        = (batchSegments repo store
            ((completion.filter (fun sc => !sc.Scrape.2.isSome)).map
              (fun sc => sc.Scrape.1)).flatten).flatten ∧
    (scrape repo store completion).1.store
        = storeAfterBatch repo store
            ((completion.filter (fun sc => !sc.Scrape.2.isSome)).map
              (fun sc => sc.Scrape.1)).flatten := by
  unfold scrape
  obtain ⟨h1, h2⟩ := processResults_effects_store repo (completion.map scraperTask)
    { store := store, effects := [], stats := [] }
  simp only [h1, h2, scraperTask_projects_flatten, List.nil_append, and_self]

theorem RunStep_entry_running {σ : Type} (scrapeFn : σ → RunState σ × Option String) (i : Nat)
    (sys : Sys σ) (hpc : sys.pc i = RunPc.entry) (hr : sys.running = true) :
    RunStep scrapeFn i sys
      = { sys with
          logs := sys.logs ++ ["scrape already running; skipping"]
          pc := Function.update sys.pc i RunPc.returned } := by
  simp [RunStep, hpc, hr]

theorem RunStep_entry_idle {σ : Type} (scrapeFn : σ → RunState σ × Option String) (i : Nat)
    (sys : Sys σ) (hpc : sys.pc i = RunPc.entry) (hr : sys.running = false) :
    RunStep scrapeFn i sys
      = { sys with running := true, pc := Function.update sys.pc i RunPc.working } := by
  simp [RunStep, hpc, hr]

theorem RunStep_working {σ : Type} (scrapeFn : σ → RunState σ × Option String) (i : Nat)
    (sys : Sys σ) (hpc : sys.pc i = RunPc.working) :
    RunStep scrapeFn i sys
      = { sys with
          store := (scrapeFn sys.store).1.store
          effects := sys.effects ++ (scrapeFn sys.store).1.effects
          logs := match (scrapeFn sys.store).2 with
            | some e => sys.logs ++ ["scrape error: " ++ e]
            | none => sys.logs
          pc := Function.update sys.pc i RunPc.exiting } := by
  simp [RunStep, hpc]

theorem RunStep_exiting {σ : Type} (scrapeFn : σ → RunState σ × Option String) (i : Nat)
    (sys : Sys σ) (hpc : sys.pc i = RunPc.exiting) :
    RunStep scrapeFn i sys
      = { sys with running := false, pc := Function.update sys.pc i RunPc.returned } := by
  simp [RunStep, hpc]

theorem RunStep_returned {σ : Type} (scrapeFn : σ → RunState σ × Option String) (i : Nat)
    (sys : Sys σ) (hpc : sys.pc i = RunPc.returned) : RunStep scrapeFn i sys = sys := by
  simp [RunStep, hpc]

theorem singleFlight_idle {σ : Type} (store : σ) : SingleFlight (idleSys store) := by
  constructor
  · intro i j hi
    simp [idleSys, inFlight] at hi
  · simp [idleSys, inFlight]

theorem singleFlight_step {σ : Type} (scrapeFn : σ → RunState σ × Option String) (i : Nat)
    (sys : Sys σ) (h : SingleFlight sys) : SingleFlight (RunStep scrapeFn i sys) := by
  obtain ⟨huniq, hflag⟩ := h
  cases hpc : sys.pc i with
  | entry =>
    cases hr : sys.running with
    | true =>
      rw [RunStep_entry_running scrapeFn i sys hpc hr]
      have hsame : ∀ k, inFlight (Function.update sys.pc i RunPc.returned k) = inFlight (sys.pc k) := by
        intro k
        by_cases hk : k = i
        · subst hk; simp [hpc, inFlight]
        · simp [Function.update_noteq hk]
      constructor
      · intro a b ha hb
        simp only [hsame] at ha hb
        exact huniq a b ha hb
      · simp only [hsame]
        exact hflag
    | false =>
      rw [RunStep_entry_idle scrapeFn i sys hpc hr]
      have hnone : ∀ k, inFlight (sys.pc k) = false := by
        intro k
        by_contra hc
        have : sys.running = true := hflag.mpr ⟨k, by simpa using hc⟩
        rw [hr] at this
        exact Bool.noConfusion this
      have hchar : ∀ k, inFlight (Function.update sys.pc i RunPc.working k) = true ↔ k = i := by
        intro k
        by_cases hk : k = i
        · subst hk; simp [inFlight]
        · simp [Function.update_noteq hk, hnone, hk]
      constructor
      · intro a b ha hb
        rw [(hchar a).mp ha, (hchar b).mp hb]
      · simp only [true_iff]
        exact ⟨i, (hchar i).mpr rfl⟩
  | working =>
    rw [RunStep_working scrapeFn i sys hpc]
    have hsame : ∀ k, inFlight (Function.update sys.pc i RunPc.exiting k) = inFlight (sys.pc k) := by
      intro k
      by_cases hk : k = i
      · subst hk; simp [hpc, inFlight]
      · simp [Function.update_noteq hk]
    constructor
    · intro a b ha hb
      simp only [hsame] at ha hb
      exact huniq a b ha hb
    · simp only [hsame]
      exact hflag
  | exiting =>
    rw [RunStep_exiting scrapeFn i sys hpc]
    have hi : inFlight (sys.pc i) = true := by simp [hpc, inFlight]
    have hnone : ∀ k, inFlight (Function.update sys.pc i RunPc.returned k) = false := by
      intro k
      by_cases hk : k = i
      · subst hk; simp [inFlight]
      · simp only [Function.update_noteq hk]
        by_contra hc
        exact hk (huniq k i (by simpa using hc) hi)
    constructor
    · intro a b ha
      simp [hnone] at ha
    · simp [hnone]
  | returned =>
    rw [RunStep_returned scrapeFn i sys hpc]
    exact ⟨huniq, hflag⟩

theorem singleFlight_schedule {σ : Type} (scrapeFn : σ → RunState σ × Option String)
    (sched : List Nat) : ∀ sys : Sys σ, SingleFlight sys →
    SingleFlight (runSchedule scrapeFn sched sys) := by
  induction sched with
  | nil => intro sys h; exact h
  | cons i rest ih =>
    intro sys h
    simp only [runSchedule, List.foldl_cons]
    exact ih _ (singleFlight_step scrapeFn i sys h)

theorem runSchedule_append {σ : Type} (scrapeFn : σ → RunState σ × Option String)
    (a b : List Nat) (sys : Sys σ) :
    runSchedule scrapeFn (a ++ b) sys = runSchedule scrapeFn b (runSchedule scrapeFn a sys) := by
  simp [runSchedule, List.foldl_append]

theorem runSchedule_cons {σ : Type} (scrapeFn : σ → RunState σ × Option String)
    (i : Nat) (a : List Nat) (sys : Sys σ) :
    runSchedule scrapeFn (i :: a) sys = runSchedule scrapeFn a (RunStep scrapeFn i sys) := by
  simp [runSchedule]

/-- While the flag is set, calls that are at `entry` (or already returned) only
return: nothing else changes. -/
theorem runSchedule_skips {σ : Type} (scrapeFn : σ → RunState σ × Option String)
    (a : List Nat) : ∀ sys : Sys σ, sys.running = true →
    (∀ j ∈ a, sys.pc j = RunPc.entry ∨ sys.pc j = RunPc.returned) →
    (runSchedule scrapeFn a sys).running = true ∧
    (runSchedule scrapeFn a sys).store = sys.store ∧
    (runSchedule scrapeFn a sys).effects = sys.effects ∧
    (∀ j ∈ a, (runSchedule scrapeFn a sys).pc j = RunPc.returned) ∧
    (∀ j, j ∉ a → (runSchedule scrapeFn a sys).pc j = sys.pc j) := by
  induction a with
  | nil => intro sys hr _; simp [runSchedule, hr]
  | cons k rest ih =>
    intro sys hr hpcs
    rw [runSchedule_cons]
    have hk := hpcs k (List.mem_cons_self _ _)
    have hstep : (RunStep scrapeFn k sys).running = true ∧
        (RunStep scrapeFn k sys).store = sys.store ∧
        (RunStep scrapeFn k sys).effects = sys.effects ∧
        (RunStep scrapeFn k sys).pc k = RunPc.returned ∧
        (∀ j, j ≠ k → (RunStep scrapeFn k sys).pc j = sys.pc j) := by
      rcases hk with hk | hk
      · rw [RunStep_entry_running scrapeFn k sys hk hr]
        refine ⟨hr, rfl, rfl, by simp, ?_⟩
        intro j hj
        simp [Function.update_noteq hj]
      · rw [RunStep_returned scrapeFn k sys hk]
        exact ⟨hr, rfl, rfl, hk, fun _ _ => rfl⟩
    obtain ⟨s1, s2, s3, s4, s5⟩ := hstep
    have hrest : ∀ j ∈ rest, (RunStep scrapeFn k sys).pc j = RunPc.entry ∨
        (RunStep scrapeFn k sys).pc j = RunPc.returned := by
      intro j hj
      by_cases hjk : j = k
      · subst hjk; exact Or.inr s4
      · rw [s5 j hjk]; exact hpcs j (List.mem_cons_of_mem _ hj)
    obtain ⟨r1, r2, r3, r4, r5⟩ := ih (RunStep scrapeFn k sys) s1 hrest
    refine ⟨r1, by rw [r2, s2], by rw [r3, s3], ?_, ?_⟩
    · intro j hj
      by_cases hjr : j ∈ rest
      · exact r4 j hjr
      · have hjk : j = k := by
          rcases List.mem_cons.mp hj with h | h
          · exact h
          · exact absurd h hjr
        rw [r5 j hjr, hjk]; exact s4
    · intro j hj
      have hjk : j ≠ k := fun h => hj (h ▸ List.mem_cons_self _ _)
      have hjr : j ∉ rest := fun h => hj (List.mem_cons_of_mem _ h)
      rw [r5 j hjr, s5 j hjk]

theorem RunStep_entry_idle_fields {σ : Type} (scrapeFn : σ → RunState σ × Option String)
    (i : Nat) (sys : Sys σ) (hpc : sys.pc i = RunPc.entry) (hr : sys.running = false) :
    (RunStep scrapeFn i sys).running = true ∧
    (RunStep scrapeFn i sys).store = sys.store ∧
    (RunStep scrapeFn i sys).effects = sys.effects ∧
    (RunStep scrapeFn i sys).pc i = RunPc.working ∧
    (∀ j, j ≠ i → (RunStep scrapeFn i sys).pc j = sys.pc j) := by
  rw [RunStep_entry_idle scrapeFn i sys hpc hr]
  refine ⟨rfl, rfl, rfl, by simp, ?_⟩
  intro j hj
  simp [Function.update_noteq hj]

theorem RunStep_entry_running_fields {σ : Type} (scrapeFn : σ → RunState σ × Option String)
    (i : Nat) (sys : Sys σ) (hpc : sys.pc i = RunPc.entry) (hr : sys.running = true) :
    (RunStep scrapeFn i sys).running = true ∧
    (RunStep scrapeFn i sys).store = sys.store ∧
    (RunStep scrapeFn i sys).effects = sys.effects ∧
    (RunStep scrapeFn i sys).pc i = RunPc.returned ∧
    (∀ j, j ≠ i → (RunStep scrapeFn i sys).pc j = sys.pc j) := by
  rw [RunStep_entry_running scrapeFn i sys hpc hr]
  refine ⟨hr, rfl, rfl, by simp, ?_⟩
  intro j hj
  simp [Function.update_noteq hj]

theorem RunStep_working_fields {σ : Type} (scrapeFn : σ → RunState σ × Option String)
    (i : Nat) (sys : Sys σ) (hpc : sys.pc i = RunPc.working) :
    (RunStep scrapeFn i sys).running = sys.running ∧
    (RunStep scrapeFn i sys).store = (scrapeFn sys.store).1.store ∧
    (RunStep scrapeFn i sys).effects = sys.effects ++ (scrapeFn sys.store).1.effects ∧
    (RunStep scrapeFn i sys).pc i = RunPc.exiting ∧
    (∀ j, j ≠ i → (RunStep scrapeFn i sys).pc j = sys.pc j) := by
  rw [RunStep_working scrapeFn i sys hpc]
  refine ⟨rfl, rfl, rfl, by simp, ?_⟩
  intro j hj
  simp [Function.update_noteq hj]

theorem RunStep_exiting_fields {σ : Type} (scrapeFn : σ → RunState σ × Option String)
    (i : Nat) (sys : Sys σ) (hpc : sys.pc i = RunPc.exiting) :
    (RunStep scrapeFn i sys).running = false ∧
    (RunStep scrapeFn i sys).store = sys.store ∧
    (RunStep scrapeFn i sys).effects = sys.effects ∧
    (RunStep scrapeFn i sys).pc i = RunPc.returned ∧
    (∀ j, j ≠ i → (RunStep scrapeFn i sys).pc j = sys.pc j) := by
  rw [RunStep_exiting scrapeFn i sys hpc]
  refine ⟨rfl, rfl, rfl, by simp, ?_⟩
  intro j hj
  simp [Function.update_noteq hj]

theorem runSchedule_single {σ : Type} (scrapeFn : σ → RunState σ × Option String)
    (i : Nat) (sys : Sys σ) : runSchedule scrapeFn [i] sys = RunStep scrapeFn i sys := by
  simp [runSchedule]

/-- Calls issued while call `i` is in flight: from the idle service, call `i`
enters, the calls of `a` step, call `i` runs `scrape`, the calls of `b` step,
call `i` runs its deferred function. -/
theorem overlapping_calls {σ : Type} (scrapeFn : σ → RunState σ × Option String) (store : σ)
    (i : Nat) (a b : List Nat) (ha : i ∉ a) (hb : i ∉ b) :
    (runSchedule scrapeFn ([i] ++ a ++ [i] ++ b ++ [i]) (idleSys store)).effects
      = (scrapeFn store).1.effects ∧
    (runSchedule scrapeFn ([i] ++ a ++ [i] ++ b ++ [i]) (idleSys store)).store
      = (scrapeFn store).1.store ∧
    (runSchedule scrapeFn ([i] ++ a ++ [i] ++ b ++ [i]) (idleSys store)).running = false ∧
    (runSchedule scrapeFn ([i] ++ a ++ [i] ++ b ++ [i]) (idleSys store)).pc i = RunPc.returned ∧
    (∀ j ∈ a ++ b,
      (runSchedule scrapeFn ([i] ++ a ++ [i] ++ b ++ [i]) (idleSys store)).pc j
        = RunPc.returned) := by
  simp only [runSchedule_append, runSchedule_single]
  obtain ⟨p1, p2, p3, p4, p5⟩ :=
    RunStep_entry_idle_fields scrapeFn i (idleSys store) rfl rfl
  generalize RunStep scrapeFn i (idleSys store) = s1 at p1 p2 p3 p4 p5 ⊢
  have hs1pc : ∀ j, j ≠ i → s1.pc j = RunPc.entry := by
    intro j hj
    rw [p5 j hj]; rfl
  obtain ⟨a1, a2, a3, a4, a5⟩ := runSchedule_skips scrapeFn a s1 p1 (by
    intro j hj
    have hji : j ≠ i := fun h => ha (h ▸ hj)
    exact Or.inl (hs1pc j hji))
  generalize runSchedule scrapeFn a s1 = s2 at a1 a2 a3 a4 a5 ⊢
  have hs2i : s2.pc i = RunPc.working := by
    rw [a5 i ha]; exact p4
  obtain ⟨q1, q2, q3, q4, q5⟩ := RunStep_working_fields scrapeFn i s2 hs2i
  generalize RunStep scrapeFn i s2 = s3 at q1 q2 q3 q4 q5 ⊢
  obtain ⟨b1, b2, b3, b4, b5⟩ := runSchedule_skips scrapeFn b s3 (by rw [q1, a1]) (by
    intro j hj
    have hji : j ≠ i := fun h => hb (h ▸ hj)
    rw [q5 j hji]
    by_cases hja : j ∈ a
    · exact Or.inr (a4 j hja)
    · rw [a5 j hja]; exact Or.inl (hs1pc j hji))
  generalize runSchedule scrapeFn b s3 = s4 at b1 b2 b3 b4 b5 ⊢
  have hs4i : s4.pc i = RunPc.exiting := by
    rw [b5 i hb]; exact q4
  obtain ⟨r1, r2, r3, r4, r5⟩ := RunStep_exiting_fields scrapeFn i s4 hs4i
  refine ⟨?_, ?_, r1, r4, ?_⟩
  · rw [r3, b3, q3, a3, a2, p3, p2]
    simp [idleSys]
  · rw [r2, b2, q2, a2, p2]
    rfl
  · intro j hj
    have hji : j ≠ i := by
      intro h
      rcases List.mem_append.mp hj with h1 | h1
      · exact ha (h ▸ h1)
      · exact hb (h ▸ h1)
    rw [r5 j hji]
    by_cases hjb : j ∈ b
    · exact b4 j hjb
    · have hja : j ∈ a := by
        rcases List.mem_append.mp hj with h1 | h1
        · exact h1
        · exact absurd h1 hjb
      rw [b5 j hjb, q5 j hji]
      exact a4 j hja

end scraping

namespace telegram

open gostring

theorem timeSleep_frame {χ : Type} (env : Remote χ) (s : Sender χ) (d : Int) :
    (timeSleep env s d).queue = s.queue ∧ (timeSleep env s d).minInterval = s.minInterval ∧
    (timeSleep env s d).lastSentTime = s.lastSentTime ∧
    (timeSleep env s d).attempts = s.attempts ∧
    s.now ≤ (timeSleep env s d).now ∧ s.now + d ≤ (timeSleep env s d).now := by
  unfold timeSleep
  split_ifs with h
  · refine ⟨rfl, rfl, rfl, rfl, le_refl _, ?_⟩
    omega
  · refine ⟨rfl, rfl, rfl, rfl, ?_, ?_⟩
    all_goals (simp; try omega)

theorem postMessage_frame {χ : Type} (env : Remote χ) (s : Sender χ) (text : GoString) :
    (postMessage env s text).1.queue = s.queue ∧
    (postMessage env s text).1.minInterval = s.minInterval ∧
    (postMessage env s text).1.lastSentTime = s.lastSentTime ∧
    (postMessage env s text).1.attempts
      = s.attempts ++ [⟨text, s.now, (postMessage env s text).1.now,
          (postMessage env s text).2.1, (postMessage env s text).2.2⟩] ∧
    s.now ≤ (postMessage env s text).1.now ∧
    ((postMessage env s text).2.1, (postMessage env s text).2.2)
      = postMessageResult (env.post s.remote s.now text).2.1 := by
  unfold postMessage
  refine ⟨rfl, rfl, rfl, rfl, ?_, rfl⟩
  simp

theorem afterWait_frame {χ : Type} (env : Remote χ) (s : Sender χ) :
    (afterWait env s).queue = s.queue ∧ (afterWait env s).minInterval = s.minInterval ∧
    (afterWait env s).lastSentTime = s.lastSentTime ∧
    (afterWait env s).attempts = s.attempts ∧ s.now ≤ (afterWait env s).now := by
  unfold afterWait
  split_ifs
  · obtain ⟨h1, h2, h3, h4, h5, _⟩ := timeSleep_frame env s
      (timeUntil (s.lastSentTime + s.minInterval) s.now)
    exact ⟨h1, h2, h3, h4, h5⟩
  · exact ⟨rfl, rfl, rfl, rfl, le_refl _⟩

theorem sendWithRateLimit_ok {χ : Type} (env : Remote χ) (s : Sender χ) (text : GoString)
    (h : (postMessage env (afterWait env s) text).2.2 = none) :
    sendWithRateLimit env s text
      = { (postMessage env (afterWait env s) text).1 with
          lastSentTime := (postMessage env (afterWait env s) text).1.now
          logs := (postMessage env (afterWait env s) text).1.logs
            ++ ["Telegram alert sent successfully"] } := by
  unfold sendWithRateLimit
  simp only [afterWait] at h ⊢
  simp [h]

theorem sendWithRateLimit_error {χ : Type} (env : Remote χ) (s : Sender χ) (text : GoString)
    (h : (postMessage env (afterWait env s) text).2.2.isSome = true)
    (hr : ¬ (postMessage env (afterWait env s) text).2.1 > 0) :
    sendWithRateLimit env s text
      = { (postMessage env (afterWait env s) text).1 with
          logs := (postMessage env (afterWait env s) text).1.logs ++ ["Telegram send error"] } := by
  unfold sendWithRateLimit
  simp only [afterWait] at h hr ⊢
  simp [h, hr]

theorem sendWithRateLimit_retry_ok {χ : Type} (env : Remote χ) (s : Sender χ) (text : GoString)
    (h : (postMessage env (afterWait env s) text).2.2.isSome = true)
    (hr : (postMessage env (afterWait env s) text).2.1 > 0)
    (h2 : (postMessage env (beforeRetry env s text) text).2.2 = none) :
    sendWithRateLimit env s text
      = { (postMessage env (beforeRetry env s text) text).1 with
          lastSentTime := (postMessage env (beforeRetry env s text) text).1.now
          logs := (postMessage env (beforeRetry env s text) text).1.logs
            ++ ["Telegram alert sent successfully (after retry)"] } := by
  unfold sendWithRateLimit
  simp only [afterWait, beforeRetry] at h hr h2 ⊢
  simp [h, hr, h2]

theorem sendWithRateLimit_retry_failed {χ : Type} (env : Remote χ) (s : Sender χ)
    (text : GoString)
    (h : (postMessage env (afterWait env s) text).2.2.isSome = true)
    (hr : (postMessage env (afterWait env s) text).2.1 > 0)
    (h2 : (postMessage env (beforeRetry env s text) text).2.2.isSome = true) :
    sendWithRateLimit env s text
      = { (postMessage env (beforeRetry env s text) text).1 with
          logs := (postMessage env (beforeRetry env s text) text).1.logs
            ++ ["Telegram retry failed"] } := by
  unfold sendWithRateLimit
  simp only [afterWait, beforeRetry] at h hr h2 ⊢
  simp [h, hr, h2]

theorem beforeRetry_frame {χ : Type} (env : Remote χ) (s : Sender χ) (text : GoString) :
    (beforeRetry env s text).queue = s.queue ∧
    (beforeRetry env s text).minInterval = s.minInterval ∧
    (beforeRetry env s text).lastSentTime = s.lastSentTime ∧
    (beforeRetry env s text).attempts = (postMessage env (afterWait env s) text).1.attempts ∧
    (postMessage env (afterWait env s) text).1.now
      + (postMessage env (afterWait env s) text).2.1 ≤ (beforeRetry env s text).now ∧
    (postMessage env (afterWait env s) text).1.now ≤ (beforeRetry env s text).now := by
  obtain ⟨a1, a2, a3, _, _⟩ := afterWait_frame env s
  obtain ⟨p1, p2, p3, _, _, _⟩ := postMessage_frame env (afterWait env s) text
  obtain ⟨t1, t2, t3, t4, t5, t6⟩ := timeSleep_frame env
    { (postMessage env (afterWait env s) text).1 with
      logs := (postMessage env (afterWait env s) text).1.logs
        ++ ["Telegram rate limit hit. Retrying"] }
    (postMessage env (afterWait env s) text).2.1
  unfold beforeRetry
  refine ⟨?_, ?_, ?_, t4, t6, t5⟩
  · rw [t1]; show (postMessage env (afterWait env s) text).1.queue = _; rw [p1, a1]
  · rw [t2]; show (postMessage env (afterWait env s) text).1.minInterval = _; rw [p2, a2]
  · rw [t3]; show (postMessage env (afterWait env s) text).1.lastSentTime = _; rw [p3, a3]

theorem sendWithRateLimit_queue {χ : Type} (env : Remote χ) (s : Sender χ) (text : GoString) :
    (sendWithRateLimit env s text).queue = s.queue := by
  obtain ⟨a1, _⟩ := afterWait_frame env s
  obtain ⟨p1, _⟩ := postMessage_frame env (afterWait env s) text
  obtain ⟨b1, _⟩ := beforeRetry_frame env s text
  obtain ⟨q1, _⟩ := postMessage_frame env (beforeRetry env s text) text
  cases he : (postMessage env (afterWait env s) text).2.2 with
  | none =>
    rw [sendWithRateLimit_ok env s text he]
    show (postMessage env (afterWait env s) text).1.queue = _
    rw [p1, a1]
  | some e =>
    have he2 : (postMessage env (afterWait env s) text).2.2.isSome = true := by
      rw [he]; rfl
    by_cases hr : (postMessage env (afterWait env s) text).2.1 > 0
    · cases hq : (postMessage env (beforeRetry env s text) text).2.2 with
      | none =>
        rw [sendWithRateLimit_retry_ok env s text he2 hr hq]
        show (postMessage env (beforeRetry env s text) text).1.queue = _
        rw [q1, b1]
      | some e2 =>
        rw [sendWithRateLimit_retry_failed env s text he2 hr (by rw [hq]; rfl)]
        show (postMessage env (beforeRetry env s text) text).1.queue = _
        rw [q1, b1]
    · rw [sendWithRateLimit_error env s text he2 hr]
      show (postMessage env (afterWait env s) text).1.queue = _
      rw [p1, a1]

theorem afterWait_now {χ : Type} (env : Remote χ) (s : Sender χ)
    (hsat : s.lastSentTime + s.minInterval - s.now ≤ 2 ^ 63 - 1) :
    s.lastSentTime + s.minInterval ≤ (afterWait env s).now := by
  unfold afterWait
  generalize hw : timeUntil (s.lastSentTime + s.minInterval) s.now = w
  have hwv : (0 < w → w = s.lastSentTime + s.minInterval - s.now) ∧
      (w ≤ 0 → s.lastSentTime + s.minInterval - s.now ≤ 0) := by
    unfold timeUntil at hw
    split_ifs at hw <;> constructor <;> intro _ <;> omega
  split_ifs with h
  · obtain ⟨_, _, _, _, _, h6⟩ := timeSleep_frame env s w
    have := hwv.1 h
    omega
  · have := hwv.2 (by omega)
    omega

/-- What one call of `sendWithRateLimit` adds to the trace: a first attempt made
right after the wait, possibly a retry; when the last attempt has a nil error,
`lastSentTime` is the clock at return. -/
theorem sendWithRateLimit_summary {χ : Type} (env : Remote χ) (s : Sender χ) (text : GoString) :
    ∃ (first : Attempt) (more : List Attempt),
      (sendWithRateLimit env s text).attempts = s.attempts ++ first :: more ∧
      first.text = text ∧ first.start = (afterWait env s).now ∧
      (sendWithRateLimit env s text).minInterval = s.minInterval ∧
      (∀ last, (first :: more).getLast? = some last → last.err = none →
        (sendWithRateLimit env s text).lastSentTime = (sendWithRateLimit env s text).now ∧
        first.start ≤ (sendWithRateLimit env s text).lastSentTime) ∧
      (∀ last, (first :: more).getLast? = some last → last.err.isSome = true →
        (sendWithRateLimit env s text).lastSentTime = s.lastSentTime) := by
  obtain ⟨a1, a2, a3, a4, a5⟩ := afterWait_frame env s
  obtain ⟨p1, p2, p3, p4, p5, p6⟩ := postMessage_frame env (afterWait env s) text
  obtain ⟨b1, b2, b3, b4, b5, b6⟩ := beforeRetry_frame env s text
  obtain ⟨q1, q2, q3, q4, q5, q6⟩ := postMessage_frame env (beforeRetry env s text) text
  cases he : (postMessage env (afterWait env s) text).2.2 with
  | none =>
    refine ⟨⟨text, (afterWait env s).now, (postMessage env (afterWait env s) text).1.now,
      (postMessage env (afterWait env s) text).2.1, none⟩, [], ?_, rfl, rfl, ?_, ?_, ?_⟩
    · rw [sendWithRateLimit_ok env s text he]
      show (postMessage env (afterWait env s) text).1.attempts = _
      rw [p4, a4, he]
    · rw [sendWithRateLimit_ok env s text he]
      show (postMessage env (afterWait env s) text).1.minInterval = _
      rw [p2, a2]
    · intro last _ _
      rw [sendWithRateLimit_ok env s text he]
      exact ⟨rfl, p5⟩
    · intro last hl hlast
      simp only [List.getLast?_singleton, Option.some.injEq] at hl
      subst hl
      simp at hlast
  | some e =>
    have he2 : (postMessage env (afterWait env s) text).2.2.isSome = true := by
      rw [he]; rfl
    by_cases hr : (postMessage env (afterWait env s) text).2.1 > 0
    · cases hq : (postMessage env (beforeRetry env s text) text).2.2 with
      | none =>
        refine ⟨⟨text, (afterWait env s).now, (postMessage env (afterWait env s) text).1.now,
          (postMessage env (afterWait env s) text).2.1, some e⟩,
          [⟨text, (beforeRetry env s text).now,
            (postMessage env (beforeRetry env s text) text).1.now,
            (postMessage env (beforeRetry env s text) text).2.1, none⟩], ?_, rfl, rfl, ?_, ?_, ?_⟩
        · rw [sendWithRateLimit_retry_ok env s text he2 hr hq]
          show (postMessage env (beforeRetry env s text) text).1.attempts = _
          rw [q4, b4, p4, a4, he, hq]
          simp
        · rw [sendWithRateLimit_retry_ok env s text he2 hr hq]
          show (postMessage env (beforeRetry env s text) text).1.minInterval = _
          rw [q2, b2]
        · intro last _ _
          rw [sendWithRateLimit_retry_ok env s text he2 hr hq]
          refine ⟨rfl, ?_⟩
          show (afterWait env s).now ≤ (postMessage env (beforeRetry env s text) text).1.now
          omega
        · intro last hl hlast
          simp only [List.getLast?_cons_cons, List.getLast?_singleton, Option.some.injEq] at hl
          subst hl
          simp at hlast
      | some e2 =>
        have hq2 : (postMessage env (beforeRetry env s text) text).2.2.isSome = true := by
          rw [hq]; rfl
        refine ⟨⟨text, (afterWait env s).now, (postMessage env (afterWait env s) text).1.now,
          (postMessage env (afterWait env s) text).2.1, some e⟩,
          [⟨text, (beforeRetry env s text).now,
            (postMessage env (beforeRetry env s text) text).1.now,
            (postMessage env (beforeRetry env s text) text).2.1, some e2⟩], ?_, rfl, rfl, ?_, ?_, ?_⟩
        · rw [sendWithRateLimit_retry_failed env s text he2 hr hq2]
          show (postMessage env (beforeRetry env s text) text).1.attempts = _
          rw [q4, b4, p4, a4, he, hq]
          simp
        · rw [sendWithRateLimit_retry_failed env s text he2 hr hq2]
          show (postMessage env (beforeRetry env s text) text).1.minInterval = _
          rw [q2, b2]
        · intro last hl hlast
          simp only [List.getLast?_cons_cons, List.getLast?_singleton, Option.some.injEq] at hl
          subst hl
          simp at hlast
        · intro last _ _
          rw [sendWithRateLimit_retry_failed env s text he2 hr hq2]
          show (postMessage env (beforeRetry env s text) text).1.lastSentTime = _
          rw [q3, b3]
    · refine ⟨⟨text, (afterWait env s).now, (postMessage env (afterWait env s) text).1.now,
        (postMessage env (afterWait env s) text).2.1, some e⟩, [], ?_, rfl, rfl, ?_, ?_, ?_⟩
      · rw [sendWithRateLimit_error env s text he2 hr]
        show (postMessage env (afterWait env s) text).1.attempts = _
        rw [p4, a4, he]
      · rw [sendWithRateLimit_error env s text he2 hr]
        show (postMessage env (afterWait env s) text).1.minInterval = _
        rw [p2, a2]
      · intro last hl hlast
        simp only [List.getLast?_singleton, Option.some.injEq] at hl
        subst hl
        simp at hlast
      · intro last _ _
        rw [sendWithRateLimit_error env s text he2 hr]
        show (postMessage env (afterWait env s) text).1.lastSentTime = _
        rw [p3, a3]

theorem sendWithRateLimit_now {χ : Type} (env : Remote χ) (s : Sender χ) (text : GoString) :
    s.now ≤ (sendWithRateLimit env s text).now := by
  obtain ⟨_, _, _, _, a5⟩ := afterWait_frame env s
  obtain ⟨_, _, _, _, p5, _⟩ := postMessage_frame env (afterWait env s) text
  obtain ⟨_, _, _, _, _, b6⟩ := beforeRetry_frame env s text
  obtain ⟨_, _, _, _, q5, _⟩ := postMessage_frame env (beforeRetry env s text) text
  cases he : (postMessage env (afterWait env s) text).2.2 with
  | none =>
    rw [sendWithRateLimit_ok env s text he]
    show s.now ≤ (postMessage env (afterWait env s) text).1.now
    omega
  | some e =>
    have he2 : (postMessage env (afterWait env s) text).2.2.isSome = true := by
      rw [he]; rfl
    by_cases hr : (postMessage env (afterWait env s) text).2.1 > 0
    · cases hq : (postMessage env (beforeRetry env s text) text).2.2 with
      | none =>
        rw [sendWithRateLimit_retry_ok env s text he2 hr hq]
        show s.now ≤ (postMessage env (beforeRetry env s text) text).1.now
        omega
      | some e2 =>
        rw [sendWithRateLimit_retry_failed env s text he2 hr (by rw [hq]; rfl)]
        show s.now ≤ (postMessage env (beforeRetry env s text) text).1.now
        omega
    · rw [sendWithRateLimit_error env s text he2 hr]
      show s.now ≤ (postMessage env (afterWait env s) text).1.now
      omega

theorem workerStep_cons {χ : Type} (env : Remote χ) (s : Sender χ) (msg : GoString)
    (rest : List GoString) (hq : s.queue = msg :: rest) :
    workerStep env s
      = sendWithRateLimit env
          { s with
            queue := rest
            remote := (env.idle s.remote s.now).1
            now := s.now + (env.idle s.remote s.now).2 } msg := by
  unfold workerStep
  rw [hq]

/-- The four ways a call of `sendWithRateLimit` can go, with the attempts it
records and what it leaves in `lastSentTime` and on the clock. -/
theorem sendWithRateLimit_cases {χ : Type} (env : Remote χ) (s : Sender χ) (text : GoString) :
    ∃ (a1 a2 : Attempt),
      a1.text = text ∧ a2.text = text ∧
      a1.start = (afterWait env s).now ∧ a1.start ≤ a1.finish ∧
      a1.finish ≤ a2.start ∧ a2.start ≤ a2.finish ∧
      (sendWithRateLimit env s text).minInterval = s.minInterval ∧
      ((a1.err = none ∧
          (sendWithRateLimit env s text).attempts = s.attempts ++ [a1] ∧
          (sendWithRateLimit env s text).lastSentTime = a1.finish ∧
          (sendWithRateLimit env s text).now = a1.finish) ∨
        (a1.err.isSome = true ∧ ¬ a1.retryAfter > 0 ∧
          (sendWithRateLimit env s text).attempts = s.attempts ++ [a1] ∧
          (sendWithRateLimit env s text).lastSentTime = s.lastSentTime ∧
          (sendWithRateLimit env s text).now = a1.finish) ∨
        (a1.err.isSome = true ∧ a1.retryAfter > 0 ∧ a2.err = none ∧
          (sendWithRateLimit env s text).attempts = s.attempts ++ [a1, a2] ∧
          (sendWithRateLimit env s text).lastSentTime = a2.finish ∧
          (sendWithRateLimit env s text).now = a2.finish) ∨
        (a1.err.isSome = true ∧ a1.retryAfter > 0 ∧ a2.err.isSome = true ∧
          (sendWithRateLimit env s text).attempts = s.attempts ++ [a1, a2] ∧
          (sendWithRateLimit env s text).lastSentTime = s.lastSentTime ∧
          (sendWithRateLimit env s text).now = a2.finish)) := by
  obtain ⟨_, a2', a3, a4, _⟩ := afterWait_frame env s
  obtain ⟨_, p2, p3, p4, p5, _⟩ := postMessage_frame env (afterWait env s) text
  obtain ⟨_, b2, b3, b4, _, b6⟩ := beforeRetry_frame env s text
  obtain ⟨_, q2, q3, q4, q5, _⟩ := postMessage_frame env (beforeRetry env s text) text
  refine ⟨⟨text, (afterWait env s).now, (postMessage env (afterWait env s) text).1.now,
      (postMessage env (afterWait env s) text).2.1,
      (postMessage env (afterWait env s) text).2.2⟩,
    ⟨text, (beforeRetry env s text).now,
      (postMessage env (beforeRetry env s text) text).1.now,
      (postMessage env (beforeRetry env s text) text).2.1,
      (postMessage env (beforeRetry env s text) text).2.2⟩,
    rfl, rfl, rfl, p5, b6, q5, ?_, ?_⟩
  · cases he : (postMessage env (afterWait env s) text).2.2 with
    | none =>
      rw [sendWithRateLimit_ok env s text he]
      show (postMessage env (afterWait env s) text).1.minInterval = _
      rw [p2, a2']
    | some e =>
      have he2 : (postMessage env (afterWait env s) text).2.2.isSome = true := by
        rw [he]; rfl
      by_cases hr : (postMessage env (afterWait env s) text).2.1 > 0
      · cases hq : (postMessage env (beforeRetry env s text) text).2.2 with
        | none =>
          rw [sendWithRateLimit_retry_ok env s text he2 hr hq]
          show (postMessage env (beforeRetry env s text) text).1.minInterval = _
          rw [q2, b2]
        | some e2 =>
          rw [sendWithRateLimit_retry_failed env s text he2 hr (by rw [hq]; rfl)]
          show (postMessage env (beforeRetry env s text) text).1.minInterval = _
          rw [q2, b2]
      · rw [sendWithRateLimit_error env s text he2 hr]
        show (postMessage env (afterWait env s) text).1.minInterval = _
        rw [p2, a2']
  · cases he : (postMessage env (afterWait env s) text).2.2 with
    | none =>
      left
      refine ⟨rfl, ?_, ?_, ?_⟩
      · rw [sendWithRateLimit_ok env s text he]
        show (postMessage env (afterWait env s) text).1.attempts = _
        rw [p4, a4, he]
      · rw [sendWithRateLimit_ok env s text he]
      · rw [sendWithRateLimit_ok env s text he]
    | some e =>
      have he2 : (postMessage env (afterWait env s) text).2.2.isSome = true := by
        rw [he]; rfl
      right
      by_cases hr : (postMessage env (afterWait env s) text).2.1 > 0
      · right
        cases hq : (postMessage env (beforeRetry env s text) text).2.2 with
        | none =>
          left
          refine ⟨rfl, hr, rfl, ?_, ?_, ?_⟩
          · rw [sendWithRateLimit_retry_ok env s text he2 hr hq]
            show (postMessage env (beforeRetry env s text) text).1.attempts = _
            rw [q4, b4, p4, a4, he, hq]
            simp
          · rw [sendWithRateLimit_retry_ok env s text he2 hr hq]
          · rw [sendWithRateLimit_retry_ok env s text he2 hr hq]
        | some e2 =>
          have hq2 : (postMessage env (beforeRetry env s text) text).2.2.isSome = true := by
            rw [hq]; rfl
          right
          refine ⟨rfl, hr, rfl, ?_, ?_, ?_⟩
          · rw [sendWithRateLimit_retry_failed env s text he2 hr hq2]
            show (postMessage env (beforeRetry env s text) text).1.attempts = _
            rw [q4, b4, p4, a4, he, hq]
            simp
          · rw [sendWithRateLimit_retry_failed env s text he2 hr hq2]
            show (postMessage env (beforeRetry env s text) text).1.lastSentTime = _
            rw [q3, b3]
          · rw [sendWithRateLimit_retry_failed env s text he2 hr hq2]
      · left
        refine ⟨rfl, hr, ?_, ?_, ?_⟩
        · rw [sendWithRateLimit_error env s text he2 hr]
          show (postMessage env (afterWait env s) text).1.attempts = _
          rw [p4, a4, he]
        · rw [sendWithRateLimit_error env s text he2 hr]
          show (postMessage env (afterWait env s) text).1.lastSentTime = _
          rw [p3, a3]
        · rw [sendWithRateLimit_error env s text he2 hr]

theorem afterWait_now_of_inv {χ : Type} (env : Remote χ) (s : Sender χ)
    (hmin : s.minInterval = 1200 * millisecond) (hpast : s.lastSentTime ≤ s.now) :
    s.lastSentTime + s.minInterval ≤ (afterWait env s).now := by
  apply afterWait_now
  have hms : millisecond = 1000000 := rfl
  omega

theorem sendWithRateLimit_inv {χ : Type} (env : Remote χ) (s : Sender χ) (text : GoString)
    (h : WorkerInv s) : WorkerInv (sendWithRateLimit env s text) := by
  obtain ⟨hmin, hpast, hfin, hpair⟩ := h
  have hms : millisecond = 1000000 := rfl
  have hw := afterWait_now_of_inv env s hmin hpast
  have hnow := sendWithRateLimit_now env s text
  obtain ⟨a1, a2, _, _, t3, t4, t5, t6, hm, hc⟩ := sendWithRateLimit_cases env s text
  rw [← t3] at hw
  have hold1 : ∀ a ∈ s.attempts, SpacedAfterSuccess s.minInterval a a1 := by
    intro a ha hsucc
    have := hfin a ha hsucc
    omega
  have hold2 : ∀ a ∈ s.attempts, SpacedAfterSuccess s.minInterval a a2 := by
    intro a ha hsucc
    have := hfin a ha hsucc
    omega
  rcases hc with ⟨e1, hatt, hl, hn⟩ | ⟨e1, _, hatt, hl, hn⟩ | ⟨e1, _, e2, hatt, hl, hn⟩ |
    ⟨e1, _, e2, hatt, hl, hn⟩
  · refine ⟨by rw [hm]; exact hmin, by rw [hl, hn], ?_, ?_⟩
    · intro a ha hsucc
      rw [hatt, List.mem_append, List.mem_singleton] at ha
      rw [hl]
      rcases ha with ha | ha
      · have := hfin a ha hsucc
        omega
      · rw [ha]
    · rw [hatt, hm, List.pairwise_append]
      refine ⟨hpair, List.pairwise_singleton _ _, ?_⟩
      intro a ha b hb
      rw [List.mem_singleton] at hb
      rw [hb]; exact hold1 a ha
  · refine ⟨by rw [hm]; exact hmin, by rw [hl]; omega, ?_, ?_⟩
    · intro a ha hsucc
      rw [hatt, List.mem_append, List.mem_singleton] at ha
      rw [hl]
      rcases ha with ha | ha
      · exact hfin a ha hsucc
      · rw [ha] at hsucc; rw [hsucc] at e1; simp at e1
    · rw [hatt, hm, List.pairwise_append]
      refine ⟨hpair, List.pairwise_singleton _ _, ?_⟩
      intro a ha b hb
      rw [List.mem_singleton] at hb
      rw [hb]; exact hold1 a ha
  · refine ⟨by rw [hm]; exact hmin, by rw [hl, hn], ?_, ?_⟩
    · intro a ha hsucc
      rw [hatt, List.mem_append] at ha
      rw [hl]
      rcases ha with ha | ha
      · have := hfin a ha hsucc
        omega
      · simp only [List.mem_cons, List.mem_singleton, List.not_mem_nil, or_false] at ha
        rcases ha with ha | ha
        · rw [ha] at hsucc; rw [hsucc] at e1; simp at e1
        · rw [ha]
    · rw [hatt, hm, List.pairwise_append]
      refine ⟨hpair, ?_, ?_⟩
      · rw [List.pairwise_pair]
        intro hsucc
        rw [hsucc] at e1; simp at e1
      · intro a ha b hb
        simp only [List.mem_cons, List.mem_singleton, List.not_mem_nil, or_false] at hb
        rcases hb with hb | hb
        · rw [hb]; exact hold1 a ha
        · rw [hb]; exact hold2 a ha
  · refine ⟨by rw [hm]; exact hmin, by rw [hl]; omega, ?_, ?_⟩
    · intro a ha hsucc
      rw [hatt, List.mem_append] at ha
      rw [hl]
      rcases ha with ha | ha
      · exact hfin a ha hsucc
      · simp only [List.mem_cons, List.mem_singleton, List.not_mem_nil, or_false] at ha
        rcases ha with ha | ha
        · rw [ha] at hsucc; rw [hsucc] at e1; simp at e1
        · rw [ha] at hsucc; rw [hsucc] at e2; simp at e2
    · rw [hatt, hm, List.pairwise_append]
      refine ⟨hpair, ?_, ?_⟩
      · rw [List.pairwise_pair]
        intro hsucc
        rw [hsucc] at e1; simp at e1
      · intro a ha b hb
        simp only [List.mem_cons, List.mem_singleton, List.not_mem_nil, or_false] at hb
        rcases hb with hb | hb
        · rw [hb]; exact hold1 a ha
        · rw [hb]; exact hold2 a ha

theorem workerStep_inv {χ : Type} (env : Remote χ) (s : Sender χ) (h : WorkerInv s) :
    WorkerInv (workerStep env s) := by
  cases hq : s.queue with
  | nil =>
    have : workerStep env s = s := by
      unfold workerStep; rw [hq]
    rw [this]; exact h
  | cons msg rest =>
    rw [workerStep_cons env s msg rest hq]
    apply sendWithRateLimit_inv
    obtain ⟨h1, h2, h3, h4⟩ := h
    refine ⟨h1, ?_, h3, h4⟩
    show s.lastSentTime ≤ s.now + (env.idle s.remote s.now).2
    omega

theorem workerRun_inv {χ : Type} (env : Remote χ) (n : Nat) : ∀ s : Sender χ,
    WorkerInv s → WorkerInv (workerRun env n s) := by
  induction n with
  | zero => intro s h; exact h
  | succ n ih =>
    intro s h
    exact ih _ (workerStep_inv env s h)

theorem workerInv_NewSender {χ : Type} (now : Int) (remote : χ) (queue : List GoString)
    (hnow : 0 ≤ now) : WorkerInv { (NewSender now remote) with queue := queue } := by
  refine ⟨rfl, hnow, ?_, List.Pairwise.nil⟩
  intro a ha
  simp [NewSender] at ha

theorem sendAll_spec (capacity : Nat) (parts : List GoString) : ∀ queue : List GoString,
    (sendAll capacity queue parts).1 ++ (sendAll capacity queue parts).2 = queue ++ parts ∧
    ((sendAll capacity queue parts).2 = [] ↔
      (parts = [] ∨ queue.length + parts.length ≤ capacity)) := by
  induction parts with
  | nil => intro queue; simp [sendAll]
  | cons p rest ih =>
    intro queue
    unfold sendAll
    split_ifs with h
    · obtain ⟨h1, h2⟩ := ih (queue ++ [p])
      refine ⟨by rw [h1]; simp, ?_⟩
      rw [h2]
      simp only [List.length_append, List.length_singleton, List.length_cons, List.length_nil,
        reduceCtorEq, false_or]
      constructor
      · rintro (hr | hr)
        · rw [hr]; simp only [List.length_nil]; omega
        · omega
      · intro hr
        right; omega
    · refine ⟨rfl, ?_⟩
      simp only [reduceCtorEq, List.length_cons, false_or, false_iff]
      omega

theorem splitMessage_nonempty (message : GoString) (limit : Nat) (hl : 0 < limit) :
    ∃ parts, splitMessage message limit = some parts ∧ parts ≠ [] := by
  by_cases h : runeCount message ≤ limit
  · exact ⟨[message], splitMessage_short message limit h, by simp⟩
  · obtain ⟨parts, hp, hlen, _⟩ := splitMessage_runeCounts message limit hl (by omega)
    refine ⟨parts, hp, ?_⟩
    intro hnil
    rw [hnil] at hlen
    have : 0 < (runeCount message + limit - 1) / limit := by
      apply Nat.div_pos <;> omega
    simp at hlen
    omega

end telegram

namespace scraping

theorem insertsOf_append (a b : List Effect) :
    insertsOf (a ++ b) = insertsOf a ++ insertsOf b := by
  simp [insertsOf, List.filterMap_append]

theorem failedInsertsOf_append (a b : List Effect) :
    failedInsertsOf (a ++ b) = failedInsertsOf a + failedInsertsOf b := by
  simp [failedInsertsOf, List.filter_append]

theorem duplicateInsertsOf_append (a b : List Effect) :
    duplicateInsertsOf (a ++ b) = duplicateInsertsOf a + duplicateInsertsOf b := by
  simp [duplicateInsertsOf, List.filter_append]

/-- What one iteration of the loop does to the statistics record, in terms of
the effects of the listing. -/
theorem processProject_stats {σ : Type} (repo : ProjectRepository σ) (s : LoopState σ)
    (p : model.ScrapedProject) :
    (processProject repo s p).st.fetched = s.st.fetched ∧
    (processProject repo s p).st.overThreshold
      = s.st.overThreshold + (if isAboveThreshold p = true then 1 else 0) ∧
    (processProject repo s p).st.belowThreshold
      = s.st.belowThreshold + (if isAboveThreshold p = true then 0 else 1) ∧
    (processProject repo s p).st.saved
      = s.st.saved + (alertsOf (listingEffects repo s.store p)).length ∧
    (processProject repo s p).st.duplicates
      = s.st.duplicates + duplicateInsertsOf (listingEffects repo s.store p) ∧
    (if isAboveThreshold p = true then 1 else 0)
      = (alertsOf (listingEffects repo s.store p)).length
        + duplicateInsertsOf (listingEffects repo s.store p)
        + failedInsertsOf (listingEffects repo s.store p) ∧
    insertsOf (listingEffects repo s.store p)
      = (if isAboveThreshold p = true then [projectCreateOf p] else []) := by
  by_cases ha : isAboveThreshold p = true
  · rw [listingEffects_above repo _ p ha]
    simp only [processProject, ha, Bool.not_true, Bool.false_eq_true, if_false, if_true]
    cases he : (repo.CreateIfNotExists s.store (projectCreateOf p)).err with
    | some e =>
      simp [alertsOf, duplicateInsertsOf, failedInsertsOf, insertsOf, he]
    | none =>
      cases hc : (repo.CreateIfNotExists s.store (projectCreateOf p)).created <;>
        simp [alertsOf, duplicateInsertsOf, failedInsertsOf, insertsOf, he, hc]
  · simp only [Bool.not_eq_true] at ha
    rw [listingEffects_below repo _ p ha]
    simp [processProject, ha, alertsOf, duplicateInsertsOf, failedInsertsOf, insertsOf]

/-- The statistics record after a batch, in terms of the record before it and
the effects of the batch. -/
theorem processBatch_stats {σ : Type} (repo : ProjectRepository σ)
    (batch : List model.ScrapedProject) : ∀ s : LoopState σ,
    (processBatch repo s batch).st.fetched = s.st.fetched ∧
    (processBatch repo s batch).st.overThreshold
      = s.st.overThreshold + (batch.filter isAboveThreshold).length ∧
    (processBatch repo s batch).st.belowThreshold
      = s.st.belowThreshold + (batch.filter (fun p => !isAboveThreshold p)).length ∧
    (processBatch repo s batch).st.saved
      = s.st.saved + (alertsOf (batchSegments repo s.store batch).flatten).length ∧
    (processBatch repo s batch).st.duplicates
      = s.st.duplicates + duplicateInsertsOf (batchSegments repo s.store batch).flatten ∧
    (batch.filter isAboveThreshold).length
      = (alertsOf (batchSegments repo s.store batch).flatten).length
        + duplicateInsertsOf (batchSegments repo s.store batch).flatten
        + failedInsertsOf (batchSegments repo s.store batch).flatten ∧
    insertsOf (batchSegments repo s.store batch).flatten
      = (batch.filter isAboveThreshold).map projectCreateOf := by
  induction batch with
  | nil =>
    intro s
    simp [processBatch, batchSegments, alertsOf, duplicateInsertsOf, failedInsertsOf, insertsOf]
  | cons p ps ih =>
    intro s
    obtain ⟨h1, h2, h3, h4, h5, h6, h7⟩ := ih (processProject repo s p)
    obtain ⟨k1, k2, k3, k4, k5, k6, k7⟩ := processProject_stats repo s p
    rw [processProject_store] at h4 h5 h6 h7
    simp only [processBatch, List.foldl_cons] at h1 h2 h3 h4 h5 h6 h7 ⊢
    simp only [batchSegments, List.flatten_cons, alertsOf_append, duplicateInsertsOf_append,
      failedInsertsOf_append, insertsOf_append, List.length_append, List.filter_cons]
    rw [h1, h2, h3, h4, h5, h7, k1, k2, k3, k4, k5, k7]
    by_cases ha : isAboveThreshold p = true
    · simp only [ha, if_true, Bool.not_true, Bool.false_eq_true, if_false, List.length_cons,
        List.map_cons, List.singleton_append] at k6 ⊢
      refine ⟨trivial, ?_, ?_, ?_, ?_, ?_, trivial⟩ <;> omega
    · simp only [ha, if_false, Bool.not_eq_true] at k6 ⊢
      simp only [Bool.not_eq_true] at ha
      simp only [ha, Bool.not_false, if_true, List.length_cons, List.nil_append,
        Bool.false_eq_true, if_false] at k6 ⊢
      refine ⟨trivial, ?_, ?_, ?_, ?_, ?_, trivial⟩ <;> omega

end scraping

namespace karlancer

open gostring common providers

theorem pickID_eq_firstNonEmpty (values : List GoValue) :
    pickID values = firstNonEmpty (values.map ToString) := by
  induction values with
  | nil => rfl
  | cons v rest ih =>
    unfold pickID
    by_cases h : ToString v = []
    · simp only [h, ne_eq, not_true_eq_false, if_false, ih]
      simp [firstNonEmpty, List.find?_cons, h]
    · simp [firstNonEmpty, List.find?_cons, h]

theorem pickID_eq_nil_iff (values : List GoValue) :
    pickID values = [] ↔ ∀ v ∈ values, ToString v = [] := by
  induction values with
  | nil => simp [pickID]
  | cons v rest ih =>
    unfold pickID
    by_cases h : ToString v = []
    · simp [h, ih]
    · simp [h]

theorem fetchPageItem_some (p : karlancerProject) (listing : model.ScrapedProject)
    (h : fetchPageItem p = some listing) :
    pickID [p.ID, p.UUID, p.AltID] ≠ [] ∧
    model.IsAboveThreshold (amountMinOf p) (amountMaxOf p) = true ∧
    listing.ExternalID = pickID [p.ID, p.UUID, p.AltID] ∧
    listing.AmountMin = amountMinOf p ∧ listing.AmountMax = amountMaxOf p ∧
    listing.BudgetText = FormatBudgetText (amountMinOf p) (amountMaxOf p) ∧
    listing.Source = bytesOf "karlancer" := by
  unfold fetchPageItem at h
  by_cases hid : pickID [p.ID, p.UUID, p.AltID] = []
  · simp [hid] at h
  · by_cases hab : model.IsAboveThreshold (amountMinOf p) (amountMaxOf p) = true
    · simp only [hid, if_false, hab, Bool.not_true, Bool.false_eq_true, Option.some.injEq] at h
      subst h
      exact ⟨hid, hab, rfl, rfl, rfl, rfl, rfl⟩
    · simp [hid, hab] at h

theorem fetchPageItem_none_of_below (p : karlancerProject)
    (h : model.IsAboveThreshold (amountMinOf p) (amountMaxOf p) = false) :
    fetchPageItem p = none := by
  unfold fetchPageItem
  by_cases hid : pickID [p.ID, p.UUID, p.AltID] = []
  · simp [hid]
  · simp [hid, h]

theorem karlancer_mem_fetchPage (fetch : Nat → Fetched (Option karlancerData)) (page : Nat)
    (listing : model.ScrapedProject) (h : listing ∈ (fetchPage fetch page).1) :
    ∃ p, fetchPageItem p = some listing := by
  unfold fetchPage at h
  split at h
  · simp at h
  · simp at h
  · rename_i data _
    simp only [List.mem_filterMap] at h
    obtain ⟨p, _, hp⟩ := h
    exact ⟨p, hp⟩

end karlancer

namespace ponisha

open gostring common providers

theorem parseProject_some (item : GoValue) (listing : model.ScrapedProject)
    (h : parseProject item = some listing) :
    ∃ p, item = GoValue.object p ∧
      ToString (mapGet p (bytesOf "id")) ≠ [] ∧
      listing.ExternalID = ToString (mapGet p (bytesOf "id")) ∧
      listing.AmountMin = ToInt64 (mapGet p (bytesOf "amount_min")) ∧
      listing.AmountMax = ToInt64 (mapGet p (bytesOf "amount_max")) ∧
      model.IsAboveThreshold listing.AmountMin listing.AmountMax = true ∧
      listing.BudgetText = FormatBudgetText listing.AmountMin listing.AmountMax ∧
      listing.Source = bytesOf "ponisha" := by
  cases item with
  | object p =>
    unfold parseProject at h
    by_cases hid : ToString (mapGet p (bytesOf "id")) = []
    · simp [hid] at h
    · by_cases hab : model.IsAboveThreshold (ToInt64 (mapGet p (bytesOf "amount_min")))
          (ToInt64 (mapGet p (bytesOf "amount_max"))) = true
      · simp only [hid, if_false, hab, Bool.not_true, Bool.false_eq_true,
          Option.some.injEq] at h
        subst h
        exact ⟨p, rfl, hid, rfl, rfl, rfl, hab, rfl, rfl⟩
      · simp [hid, hab] at h
  | _ => simp [parseProject] at h

theorem ponisha_mem_fetchPage (fetch : Nat → Fetched (Option ponishaData)) (page : Nat)
    (listing : model.ScrapedProject) (h : listing ∈ (fetchPage fetch page).1) :
    ∃ item, parseProject item = some listing := by
  unfold fetchPage at h
  split at h
  · simp at h
  · simp at h
  · rename_i data _
    split at h
    · simp at h
    · simp only [List.mem_filterMap] at h
      obtain ⟨item, _, hp⟩ := h
      exact ⟨item, hp⟩

end ponisha

namespace karlancer

open gostring common providers

theorem amountMinOf_eq (p : karlancerProject) :
    amountMinOf p = firstNonZero [ToInt64 p.MinBudget, ToInt64 p.BudgetFrom,
      ToInt64 p.AmountMin, ToInt64 p.PriceMin] := by
  unfold amountMinOf firstNonZero
  by_cases h0 : ToInt64 p.MinBudget = 0
  · by_cases h1 : ToInt64 p.BudgetFrom = 0
    · by_cases h2 : ToInt64 p.AmountMin = 0
      · by_cases h3 : ToInt64 p.PriceMin = 0
        · simp [h0, h1, h2, h3]
        · simp [h0, h1, h2, h3]
      · simp [h0, h1, h2]
    · simp [h0, h1]
  · simp [h0]

theorem amountMaxOf_eq (p : karlancerProject) :
    amountMaxOf p = firstNonZero [ToInt64 p.MaxBudget, ToInt64 p.BudgetTo,
      ToInt64 p.AmountMax, ToInt64 p.PriceMax] := by
  unfold amountMaxOf firstNonZero
  by_cases h0 : ToInt64 p.MaxBudget = 0
  · by_cases h1 : ToInt64 p.BudgetTo = 0
    · by_cases h2 : ToInt64 p.AmountMax = 0
      · by_cases h3 : ToInt64 p.PriceMax = 0
        · simp [h0, h1, h2, h3]
        · simp [h0, h1, h2, h3]
      · simp [h0, h1, h2]
    · simp [h0, h1]
  · simp [h0]

end karlancer

namespace providers

theorem pagesFrom2_nodup (lastPage : Int) : (pagesFrom2 lastPage).Nodup := by
  unfold pagesFrom2
  apply List.Nodup.map
  · intro a b h
    simpa using h
  · exact List.nodup_range _

end providers

namespace ponisha

open gostring common providers

theorem ponisha_foldl_pageTask (fetch : Nat → Fetched (Option ponishaData)) (order : List Nat) :
    ∀ seed : List model.ScrapedProject,
    order.foldl (pageTask fetch) seed
      = seed ++ ((order.filter (fun page => !(fetchPage fetch page).2.2.isSome)).map
          (fun page => (fetchPage fetch page).1)).flatten := by
  induction order with
  | nil => intro seed; simp
  | cons page rest ih =>
    intro seed
    simp only [List.foldl_cons, ih, List.filter_cons]
    unfold pageTask
    by_cases h : (fetchPage fetch page).2.2.isSome = true
    · simp [h]
    · simp [h]

end ponisha

namespace karlancer

open gostring common providers

theorem karlancer_foldl_pageTask (fetch : Nat → Fetched (Option karlancerData)) (order : List Nat) :
    ∀ acc : List model.ScrapedProject × Option String,
    (order.foldl (pageTask fetch) acc).1
      = acc.1 ++ ((order.filter (fun page => !(fetchPage fetch page).2.2.isSome)).map
          (fun page => (fetchPage fetch page).1)).flatten ∧
    ((order.foldl (pageTask fetch) acc).2.isSome = true ↔
      (acc.2.isSome = true ∨ ∃ page ∈ order, (fetchPage fetch page).2.2.isSome = true)) := by
  induction order with
  | nil => intro acc; simp
  | cons page rest ih =>
    intro acc
    obtain ⟨h1, h2⟩ := ih (pageTask fetch acc page)
    simp only [List.foldl_cons, h1, h2, List.filter_cons]
    unfold pageTask
    by_cases h : (fetchPage fetch page).2.2.isSome = true
    · by_cases ha : acc.2.isSome = true
      · simp [h, ha]
      · simp [h, ha]
    · simp [h]

end karlancer

namespace providers

end providers


namespace ponisha

open gostring common providers

theorem ponisha_mem_Scrape (fetch : Nat → Fetched (Option ponishaData)) (order : List Nat)
    (listing : model.ScrapedProject) (h : listing ∈ (Scrape fetch order).projects) :
    ∃ page, listing ∈ (fetchPage fetch page).1 := by
  unfold Scrape at h
  simp only at h
  split_ifs at h with h1 h2
  · simp at h
  · exact ⟨1, h⟩
  · simp only [fetchRemainingPages, ponisha_foldl_pageTask, List.mem_append, List.mem_flatten,
      List.mem_map, List.mem_filter] at h
    rcases h with h | ⟨l, ⟨page, _, rfl⟩, hl⟩
    · exact ⟨1, h⟩
    · exact ⟨page, hl⟩

end ponisha

namespace karlancer

open gostring common providers

theorem karlancer_mem_Scrape (fetch : Nat → Fetched (Option karlancerData)) (order : List Nat)
    (listing : model.ScrapedProject) (h : listing ∈ (Scrape fetch order).projects) :
    ∃ page, listing ∈ (fetchPage fetch page).1 := by
  unfold Scrape at h
  simp only at h
  split_ifs at h with h1 h2
  · simp at h
  · exact ⟨1, h⟩
  · rw [(karlancer_foldl_pageTask fetch order _).1] at h
    simp only [List.mem_append, List.mem_flatten, List.mem_map, List.mem_filter] at h
    rcases h with h | ⟨l, ⟨page, _, rfl⟩, hl⟩
    · exact ⟨1, h⟩
    · exact ⟨page, hl⟩

end karlancer


namespace common

open gostring

theorem parseDigits_cons (b : Nat) (rest : GoString) :
    parseDigits (b :: rest) = (b :: rest).foldl digitStep (some 0) := rfl

theorem digitsOf_spec (fuel : Nat) : ∀ (n : Nat) (acc : List Nat), n < fuel →
    ∃ D : List Nat, digitsOf fuel n acc = D ++ acc ∧ D ≠ [] ∧
      (∀ b ∈ D, 0x30 ≤ b ∧ b ≤ 0x39) ∧
      (0 < n → D.head? ≠ some 0x30) ∧
      (digitsOf fuel n acc).foldl digitStep (some 0) = acc.foldl digitStep (some n) := by
  induction fuel with
  | zero => intro n acc h; omega
  | succ fuel ih =>
    intro n acc h
    unfold digitsOf
    by_cases h10 : n < 10
    · simp only [h10, if_true]
      refine ⟨[0x30 + n], rfl, by simp, ?_, ?_, ?_⟩
      · intro b hb
        simp only [List.mem_singleton] at hb
        omega
      · intro hn
        simp only [List.head?_cons, ne_eq, Option.some.injEq]
        omega
      · have e : digitStep (some 0) (0x30 + n) = some n := by
          simp only [digitStep]
          rw [if_pos (by omega)]
          congr 1
          omega
        simp only [List.foldl_cons, e]
    · simp only [h10, if_false]
      obtain ⟨D, hD, hne, hdig, hhead, hval⟩ := ih (n / 10) ((0x30 + n % 10) :: acc) (by omega)
      refine ⟨D ++ [0x30 + n % 10], by rw [hD]; simp, by simp, ?_, ?_, ?_⟩
      · intro b hb
        rw [List.mem_append, List.mem_singleton] at hb
        rcases hb with hb | hb
        · exact hdig b hb
        · omega
      · intro _
        have hpos : 0 < n / 10 := by omega
        have := hhead hpos
        cases D with
        | nil => exact absurd rfl hne
        | cons d ds => simpa using this
      · rw [hval]
        have e : digitStep (some (n / 10)) (0x30 + n % 10) = some n := by
          simp only [digitStep]
          rw [if_pos (by omega)]
          congr 1
          omega
        simp only [List.foldl_cons, e]

/-- The decimal representation of a positive amount: non-empty, digits only, no
leading zero, and it reads back as the amount. -/
theorem FormatInt_pos (amount : Int) (h : 0 < amount) :
    FormatInt amount ≠ [] ∧ (∀ b ∈ FormatInt amount, 0x30 ≤ b ∧ b ≤ 0x39) ∧
    (FormatInt amount).head? ≠ some 0x30 ∧
    parseDigits (FormatInt amount) = some amount.toNat := by
  have hneg : ¬ amount < 0 := by omega
  obtain ⟨D, hD, hne, hdig, hhead, hval⟩ :=
    digitsOf_spec (amount.natAbs + 1) amount.natAbs [] (by omega)
  simp only [List.append_nil] at hD
  have hF : FormatInt amount = D := by
    simp only [FormatInt, hneg, if_false, hD]
  rw [hF]
  refine ⟨hne, hdig, hhead (by omega), ?_⟩
  cases hDc : D with
  | nil => exact absurd hDc hne
  | cons d ds =>
    rw [parseDigits_cons, ← hDc, ← hD, hval]
    simp only [List.foldl_nil, Option.some.injEq]
    omega

theorem lt_numParts_iff_from (n limit start j : Nat) (hl : 0 < limit) :
    j < telegram.numParts n limit start ↔ start + j * limit < n := by
  unfold telegram.numParts
  rw [Nat.lt_iff_add_one_le, Nat.le_div_iff_mul_le hl, Nat.succ_mul]
  generalize j * limit = t
  omega

theorem commaLoop_eq (input : GoString) :
    ∀ (fuel i : Nat) (parts : List GoString), input.length - i ≤ fuel →
      commaLoop input fuel i parts
        = parts ++ (List.range (telegram.numParts input.length 3 i)).map
            (telegram.chunkAt input 3 i) := by
  intro fuel
  induction fuel with
  | zero =>
    intro i parts h
    have hge : input.length ≤ i := by omega
    simp [commaLoop, telegram.numParts_of_ge _ _ _ (by decide : 0 < 3) hge]
  | succ fuel ih =>
    intro i parts h
    by_cases hlt : i < input.length
    · have e1 : (input.drop i).take 3 = telegram.chunkAt input 3 i 0 := by
        simp [telegram.chunkAt]
      have e2 : (List.range (telegram.numParts input.length 3 (i + 3))).map
            (telegram.chunkAt input 3 (i + 3))
          = (List.range (telegram.numParts input.length 3 (i + 3))).map
            (telegram.chunkAt input 3 i ∘ Nat.succ) := by
        apply List.map_congr_left
        intro j _
        simp [Function.comp, telegram.chunkAt_succ]
      simp only [commaLoop, hlt, if_true]
      rw [ih (i + 3) _ (by omega), telegram.numParts_of_lt _ _ _ (by decide : 0 < 3) hlt,
        List.range_succ_eq_map, List.map_cons, List.map_map, e1, e2, List.append_assoc,
        List.singleton_append]
    · have hge : input.length ≤ i := by omega
      simp [commaLoop, telegram.numParts_of_ge _ _ _ (by decide : 0 < 3) hge, hlt]

theorem filter_joinCommas (parts : List GoString) (h : ∀ p ∈ parts, ∀ b ∈ p, b ≠ 0x2C) :
    (joinCommas parts).filter (fun b => b != 0x2C) = parts.flatten := by
  induction parts with
  | nil => rfl
  | cons p rest ih =>
    have hp : p.filter (fun b => b != 0x2C) = p := by
      apply List.filter_eq_self.mpr
      intro b hb
      exact bne_iff_ne.mpr (h p (List.mem_cons_self _ _) b hb)
    cases rest with
    | nil =>
      rw [joinCommas, hp, List.flatten_cons, List.flatten_nil, List.append_nil]
    | cons q rest2 =>
      have := ih (fun x hx => h x (List.mem_cons_of_mem _ hx))
      rw [joinCommas, List.filter_append, hp, List.filter_cons_of_neg (by decide), this]
      simp only [List.flatten_cons]

/-- The groups `formatWithCommas` makes of a string of more than three bytes
that does not start with a minus sign. -/
theorem formatWithCommas_groups (input : GoString) (hlen : 3 < input.length)
    (hneg : input.head? ≠ some 0x2D) :
    ∃ (g : GoString) (rest : List GoString),
      formatWithCommas input = joinCommas (g :: rest) ∧
      (g :: rest).flatten = input ∧ 1 ≤ g.length ∧ g.length ≤ 3 ∧
      ∀ r ∈ rest, r.length = 3 := by
  have hfirst : 1 ≤ (if input.length % 3 = 0 then 3 else input.length % 3) ∧
      (if input.length % 3 = 0 then 3 else input.length % 3) ≤ 3 ∧
      (input.length - (if input.length % 3 = 0 then 3 else input.length % 3)) % 3 = 0 := by
    split_ifs <;> omega
  generalize hf : (if input.length % 3 = 0 then 3 else input.length % 3) = first at hfirst
  obtain ⟨f1, f2, f3⟩ := hfirst
  refine ⟨input.take first,
    (List.range (telegram.numParts input.length 3 first)).map (telegram.chunkAt input 3 first),
    ?_, ?_, ?_, ?_, ?_⟩
  · unfold formatWithCommas
    simp only [Nat.not_le.mpr hlen, if_false, hneg, hf]
    rw [commaLoop_eq input _ _ _ (by omega)]
    rfl
  · rw [List.flatten_cons,
      telegram.chunks_flatten input 3 (by decide) _ first (le_refl _)]
    exact List.take_append_drop _ _
  · rw [List.length_take]; omega
  · rw [List.length_take]; omega
  · intro r hr
    simp only [List.mem_map, List.mem_range] at hr
    obtain ⟨j, hj, rfl⟩ := hr
    rw [telegram.chunkAt_length]
    have := (lt_numParts_iff_from _ _ _ _ (by decide : 0 < 3)).mp hj
    omega

end common

/-! ## Claims -/

/-- Claim C1: `IsAboveThreshold amountMin amountMax` is true exactly when
`amountMax > 99000000` or `amountMin > 99000000`; it is false when both amounts
equal the threshold and true as soon as either amount is 99000001; the wrapper
`isAboveThreshold` of the orchestrator applies it to `AmountMin`, `AmountMax`. -/
theorem C1_IsAboveThreshold_iff :
    (∀ amountMin amountMax : Int,
      model.IsAboveThreshold amountMin amountMax = true ↔
        (amountMax > 99000000 ∨ amountMin > 99000000)) ∧
    model.IsAboveThreshold 99000000 99000000 = false ∧
    (∀ other : Int, model.IsAboveThreshold 99000001 other = true) ∧
    (∀ other : Int, model.IsAboveThreshold other 99000001 = true) ∧
    (∀ p : model.ScrapedProject,
      scraping.isAboveThreshold p = true ↔ (p.AmountMax > 99000000 ∨ p.AmountMin > 99000000)) := by
  refine ⟨?_, ?_, ?_, ?_, ?_⟩
  · intro amountMin amountMax
    simp [model.IsAboveThreshold, model.TomanThreshold]
  · decide
  · intro other
    simp [model.IsAboveThreshold, model.TomanThreshold]
  · intro other
    simp [model.IsAboveThreshold, model.TomanThreshold]
  · intro p
    simp [scraping.isAboveThreshold, model.IsAboveThreshold, model.TomanThreshold]


/-- Claim C3: for a message of `n` code points and a positive limit,
`splitMessage` returns the single segment `message` when `n <= limit`, and
otherwise exactly `ceil(n / limit)` segments, each but the last of exactly
`limit` code points and the last of between 1 and `limit` code points; with
`n = 9000` and `limit = 4096` the segment lengths are 4096, 4096, 808; and
every segment `SendAlert` hands to the queue has at most 4096 code points. -/
theorem C3_splitMessage_segments (message : gostring.GoString) (limit : Nat) (hl : 0 < limit) :
    (gostring.runeCount message ≤ limit →
      telegram.splitMessage message limit = some [message]) ∧
    (limit < gostring.runeCount message →
      ∃ parts, telegram.splitMessage message limit = some parts ∧
        parts.length = (gostring.runeCount message + limit - 1) / limit ∧
        (∀ i, i + 1 < parts.length → (parts.map gostring.runeCount)[i]? = some limit) ∧
        (∃ last, (parts.map gostring.runeCount)[parts.length - 1]? = some last ∧
          1 ≤ last ∧ last ≤ limit ∧
          last = gostring.runeCount message - (parts.length - 1) * limit)) ∧
    (gostring.runeCount message = 9000 → limit = 4096 →
      ∃ parts, telegram.splitMessage message limit = some parts ∧
        parts.map gostring.runeCount = [4096, 4096, 808]) ∧
    (∀ (formatMessage : model.ScrapedProject → gostring.GoString) (project : model.ScrapedProject),
      ∃ segments, telegram.SendAlertSegments formatMessage project = some segments ∧
        ∀ seg ∈ segments, gostring.runeCount seg ≤ 4096) := by
  refine ⟨telegram.splitMessage_short message limit, ?_, ?_, ?_⟩
  · intro h
    obtain ⟨parts, hp, hlen, hparts⟩ := telegram.splitMessage_runeCounts message limit hl h
    have hpos : 0 < parts.length := by
      rw [hlen]
      apply Nat.div_pos <;> omega
    refine ⟨parts, hp, hlen, ?_, ?_⟩
    · intro i hi
      obtain ⟨h1, _⟩ := hparts i (by omega)
      obtain ⟨_, h3⟩ := hparts (i + 1) hi
      rw [h1]
      congr 1
      rw [Nat.succ_mul] at h3
      omega
    · obtain ⟨h1, h2⟩ := hparts (parts.length - 1) (by omega)
      refine ⟨_, h1, ?_, Nat.min_le_left _ _, ?_⟩
      · omega
      · have hnot : ¬ (parts.length * limit < gostring.runeCount message) := by
          rw [hlen]
          intro hc
          have := (telegram.lt_numParts_iff (gostring.runeCount message) limit
            ((gostring.runeCount message + limit - 1) / limit) hl).mpr hc
          simp [telegram.numParts] at this
        have e : parts.length * limit = (parts.length - 1) * limit + limit := by
          conv_lhs => rw [show parts.length = (parts.length - 1) + 1 by omega]
          rw [Nat.succ_mul]
        omega
  · intro hn hlim
    subst hlim
    obtain ⟨parts, hp, hlen, hparts⟩ :=
      telegram.splitMessage_runeCounts message 4096 hl (by omega)
    refine ⟨parts, hp, ?_⟩
    rw [hn] at hlen hparts
    have hlen3 : (parts.map gostring.runeCount).length = 3 := by
      rw [List.length_map, hlen]
    have h0 := (hparts 0 (by omega)).1
    have h1 := (hparts 1 (by omega)).1
    have h2 := (hparts 2 (by omega)).1
    apply List.ext_getElem?
    intro i
    match i with
    | 0 => rw [h0]; rfl
    | 1 => rw [h1]; rfl
    | 2 => rw [h2]; rfl
    | k + 3 =>
      rw [List.getElem?_eq_none (by omega), List.getElem?_eq_none (by simp)]
  · intro formatMessage project
    unfold telegram.SendAlertSegments
    by_cases h : gostring.runeCount (formatMessage project) ≤ 4096
    · refine ⟨_, telegram.splitMessage_short _ _ h, ?_⟩
      intro seg hseg
      simp only [List.mem_singleton] at hseg
      rw [hseg]; exact h
    · obtain ⟨parts, hp, _, hparts⟩ :=
        telegram.splitMessage_runeCounts (formatMessage project) 4096 (by decide) (by omega)
      refine ⟨parts, hp, ?_⟩
      intro seg hseg
      obtain ⟨i, hi, rfl⟩ := List.getElem_of_mem hseg
      have := (hparts i hi).1
      rw [List.getElem?_map, List.getElem?_eq_getElem hi] at this
      simp only [Option.map_some', Option.some.injEq] at this
      omega

/-- Witness for claim C3: a message of 9000 bytes `41` (9000 code points) with
limit 4096. -/
theorem C3_splitMessage_segments_witness :
    0 < 4096 ∧ gostring.runeCount (List.replicate 9000 0x41) = 9000 ∧
    ∃ parts, telegram.splitMessage (List.replicate 9000 0x41) 4096 = some parts ∧
      parts.map gostring.runeCount = [4096, 4096, 808] :=
  ⟨by decide, telegram.runeCount_replicate_ascii 9000,
    (C3_splitMessage_segments (List.replicate 9000 0x41) 4096 (by decide)).2.2.1
      (telegram.runeCount_replicate_ascii 9000) rfl⟩

/-- Claim C4: the effects of the per-listing loop of `scrape` on a batch are
one segment per listing, in batch order; the segment of a listing contains
exactly one `SendAlert` call when the listing passes the threshold and the store
answered `created = true` with a nil error, and none otherwise (below threshold,
already existing, store error). One listing with `AmountMax = 100000000` that the
store reports as newly created yields exactly one notification. -/
theorem C4_alert_exactly_once {σ : Type} (repo : scraping.ProjectRepository σ)
    (s : scraping.LoopState σ) (batch : List model.ScrapedProject) :
    (∃ segs : List (List scraping.Effect),
      (scraping.processBatch repo s batch).effects = s.effects ++ segs.flatten ∧
      scraping.alertsOf (scraping.processBatch repo s batch).effects
        = scraping.alertsOf s.effects ++ (segs.map scraping.alertsOf).flatten ∧
      segs.length = batch.length ∧
      ∀ i p, batch[i]? = some p →
        ∃ seg r, segs[i]? = some seg ∧
          r = repo.CreateIfNotExists (scraping.storeAfterBatch repo s.store (batch.take i))
                (scraping.projectCreateOf p) ∧
          (scraping.isAboveThreshold p = true →
            seg.head? = some (scraping.Effect.insert (scraping.projectCreateOf p)
              r.saved r.created r.err)) ∧
          scraping.alertsOf seg
            = if scraping.isAboveThreshold p = true ∧ r.err = none ∧ r.created = true
              then [scraping.telegramProject p r.saved] else []) ∧
    (∀ (store : σ) (st : scraping.scrapeStats) (p : model.ScrapedProject),
      p.AmountMax = 100000000 →
      (repo.CreateIfNotExists store (scraping.projectCreateOf p)).created = true →
      (repo.CreateIfNotExists store (scraping.projectCreateOf p)).err = none →
      scraping.alertsOf
          (scraping.processBatch repo { store := store, effects := [], st := st } [p]).effects
        = [scraping.telegramProject p
            (repo.CreateIfNotExists store (scraping.projectCreateOf p)).saved]) := by
  constructor
  · refine ⟨scraping.batchSegments repo s.store batch, scraping.processBatch_effects repo batch s,
      ?_, scraping.batchSegments_length repo batch s.store, ?_⟩
    · rw [scraping.processBatch_effects, scraping.alertsOf_append, scraping.alertsOf_flatten]
    · intro i p hp
      refine ⟨_, _, scraping.batchSegments_getElem? repo batch s.store i p hp, rfl, ?_, ?_⟩
      · intro ha
        rw [scraping.listingEffects_above repo _ p ha]
        rfl
      · by_cases ha : scraping.isAboveThreshold p = true
        · rw [scraping.listingEffects_above repo _ p ha]
          simp only [ha, true_and]
          split_ifs <;> simp [scraping.alertsOf]
        · simp only [Bool.not_eq_true] at ha
          rw [scraping.listingEffects_below repo _ p ha]
          simp [ha, scraping.alertsOf]
  · intro store st p hmax hc he
    have ha : scraping.isAboveThreshold p = true := by
      simp [scraping.isAboveThreshold, model.IsAboveThreshold, model.TomanThreshold, hmax]
    rw [scraping.processBatch_effects]
    simp only [scraping.batchSegments, List.flatten_cons, List.flatten_nil, List.append_nil,
      List.nil_append]
    rw [scraping.listingEffects_above repo _ p ha]
    simp [hc, he, scraping.alertsOf]

/-- Claim C5: every project passed to `SendAlert` by the loop of `scrape` comes
from a listing `p` of the batch that passed the threshold and for which the store
answered `created = true` with a nil error; its `Source` and `Link` are those of
the record returned by the store and each other field is that of `p`. -/
theorem C5_alert_fields {σ : Type} (repo : scraping.ProjectRepository σ)
    (s : scraping.LoopState σ) (batch : List model.ScrapedProject) (a : model.ScrapedProject)
    (hnew : scraping.Effect.alert a ∉ s.effects)
    (h : scraping.Effect.alert a ∈ (scraping.processBatch repo s batch).effects) :
    ∃ i p r, batch[i]? = some p ∧
      r = repo.CreateIfNotExists (scraping.storeAfterBatch repo s.store (batch.take i))
            (scraping.projectCreateOf p) ∧
      scraping.isAboveThreshold p = true ∧ r.created = true ∧ r.err = none ∧
      scraping.Effect.insert (scraping.projectCreateOf p) r.saved true none
        ∈ (scraping.processBatch repo s batch).effects ∧
      a.Source = r.saved.Source ∧ a.Link = r.saved.Link ∧
      a.ExternalID = p.ExternalID ∧ a.Title = p.Title ∧ a.BudgetText = p.BudgetText ∧
      a.AmountMin = p.AmountMin ∧ a.AmountMax = p.AmountMax ∧
      a.Description = p.Description ∧ a.Skills = p.Skills ∧ a.ApprovedAt = p.ApprovedAt ∧
      a.BiddingClosedAt = p.BiddingClosedAt ∧ a.BidsCount = p.BidsCount := by
  rw [scraping.processBatch_effects] at h ⊢
  rw [List.mem_append] at h
  rcases h with h | h
  · exact absurd h hnew
  · rw [List.mem_flatten] at h
    obtain ⟨seg, hseg, ha⟩ := h
    obtain ⟨i, p, hp, rfl⟩ := scraping.mem_batchSegments repo batch s.store seg hseg
    have hsegmem := hseg
    by_cases hab : scraping.isAboveThreshold p = true
    · rw [scraping.listingEffects_above repo _ p hab] at ha hsegmem
      simp only [List.mem_cons, reduceCtorEq, false_or] at ha
      split_ifs at ha hsegmem with hc
      · simp only [List.mem_singleton, scraping.Effect.alert.injEq] at ha
        refine ⟨i, p, _, hp, rfl, hab, hc.2, hc.1, ?_, ?_⟩
        · apply List.mem_append_right
          rw [List.mem_flatten]
          refine ⟨_, hsegmem, ?_⟩
          rw [← hc.1, ← hc.2]
          exact List.mem_cons_self _ _
        · subst ha
          simp [scraping.telegramProject]
      · simp at ha
    · simp only [Bool.not_eq_true] at hab
      rw [scraping.listingEffects_below repo _ p hab] at ha
      simp at ha

/-- Witness for claim C5: the in-memory store and a batch of one new listing
above the threshold. -/
theorem C5_alert_fields_witness :
    scraping.Effect.alert scraping.sampleHigh ∉ ([] : List scraping.Effect) ∧
    scraping.Effect.alert scraping.sampleHigh
      ∈ (scraping.processBatch scraping.memoryRepo ⟨[], [], scraping.zeroStats⟩
          [scraping.sampleLow, scraping.sampleHigh]).effects ∧
    ∃ i p r, [scraping.sampleLow, scraping.sampleHigh][i]? = some p ∧
      r = scraping.memoryRepo.CreateIfNotExists
            (scraping.storeAfterBatch scraping.memoryRepo []
              ([scraping.sampleLow, scraping.sampleHigh].take i))
            (scraping.projectCreateOf p) ∧
      scraping.isAboveThreshold p = true ∧ r.created = true ∧ r.err = none ∧
      scraping.Effect.insert (scraping.projectCreateOf p) r.saved true none
        ∈ (scraping.processBatch scraping.memoryRepo ⟨[], [], scraping.zeroStats⟩
            [scraping.sampleLow, scraping.sampleHigh]).effects ∧
      scraping.sampleHigh.Source = r.saved.Source ∧ scraping.sampleHigh.Link = r.saved.Link ∧
      scraping.sampleHigh.ExternalID = p.ExternalID ∧ scraping.sampleHigh.Title = p.Title ∧
      scraping.sampleHigh.BudgetText = p.BudgetText ∧
      scraping.sampleHigh.AmountMin = p.AmountMin ∧ scraping.sampleHigh.AmountMax = p.AmountMax ∧
      scraping.sampleHigh.Description = p.Description ∧ scraping.sampleHigh.Skills = p.Skills ∧
      scraping.sampleHigh.ApprovedAt = p.ApprovedAt ∧
      scraping.sampleHigh.BiddingClosedAt = p.BiddingClosedAt ∧
      scraping.sampleHigh.BidsCount = p.BidsCount :=
  ⟨by decide, by decide,
    C5_alert_fields scraping.memoryRepo ⟨[], [], scraping.zeroStats⟩
      [scraping.sampleLow, scraping.sampleHigh] scraping.sampleHigh (by decide) (by decide)⟩

/-- Claim C8: single-flight of `Service.Run` as a state machine over the flag
`running`. A call that finds the flag set returns at once, with store, effects
and flag unchanged; a call that finds it clear sets it before any scraping work;
after `scrape`, whether or not it returned an error, the deferred function
clears the flag; in every interleaving at most one call is in flight and the
flag is set exactly when one is; and when further calls are issued while a call
is in flight, the run ends with the effects of exactly one `scrape`. -/
theorem C8_single_flight {σ : Type} (scrapeFn : σ → scraping.RunState σ × Option String) :
    (∀ (sys : scraping.Sys σ) (i : Nat),
      sys.pc i = scraping.RunPc.entry → sys.running = true →
        (scraping.RunStep scrapeFn i sys).pc i = scraping.RunPc.returned ∧
        (scraping.RunStep scrapeFn i sys).running = true ∧
        (scraping.RunStep scrapeFn i sys).store = sys.store ∧
        (scraping.RunStep scrapeFn i sys).effects = sys.effects ∧
        (scraping.Run scrapeFn i sys).running = true ∧
        (scraping.Run scrapeFn i sys).store = sys.store ∧
        (scraping.Run scrapeFn i sys).effects = sys.effects) ∧
    (∀ (sys : scraping.Sys σ) (i : Nat),
      sys.pc i = scraping.RunPc.entry → sys.running = false →
        (scraping.RunStep scrapeFn i sys).running = true ∧
        (scraping.RunStep scrapeFn i sys).pc i = scraping.RunPc.working ∧
        (scraping.RunStep scrapeFn i sys).store = sys.store ∧
        (scraping.RunStep scrapeFn i sys).effects = sys.effects) ∧
    (∀ (sys : scraping.Sys σ) (i : Nat),
      sys.pc i = scraping.RunPc.working →
        (scraping.RunStep scrapeFn i sys).pc i = scraping.RunPc.exiting ∧
        (scraping.RunStep scrapeFn i sys).effects
          = sys.effects ++ (scrapeFn sys.store).1.effects ∧
        (scraping.RunStep scrapeFn i (scraping.RunStep scrapeFn i sys)).running = false ∧
        (scraping.RunStep scrapeFn i (scraping.RunStep scrapeFn i sys)).pc i
          = scraping.RunPc.returned) ∧
    (∀ (sys : scraping.Sys σ) (i : Nat),
      sys.pc i = scraping.RunPc.entry → sys.running = false →
        (scraping.Run scrapeFn i sys).running = false ∧
        (scraping.Run scrapeFn i sys).pc i = scraping.RunPc.returned ∧
        (scraping.Run scrapeFn i sys).effects
          = sys.effects ++ (scrapeFn sys.store).1.effects) ∧
    (∀ (store : σ) (sched : List Nat),
      scraping.SingleFlight (scraping.runSchedule scrapeFn sched (scraping.idleSys store))) ∧
    (∀ (store : σ) (i : Nat) (a b : List Nat), i ∉ a → i ∉ b →
      (scraping.runSchedule scrapeFn ([i] ++ a ++ [i] ++ b ++ [i])
          (scraping.idleSys store)).effects = (scrapeFn store).1.effects ∧
      (scraping.runSchedule scrapeFn ([i] ++ a ++ [i] ++ b ++ [i])
          (scraping.idleSys store)).store = (scrapeFn store).1.store ∧
      (scraping.runSchedule scrapeFn ([i] ++ a ++ [i] ++ b ++ [i])
          (scraping.idleSys store)).running = false ∧
      (∀ j ∈ a ++ b,
        (scraping.runSchedule scrapeFn ([i] ++ a ++ [i] ++ b ++ [i])
          (scraping.idleSys store)).pc j = scraping.RunPc.returned)) := by
  refine ⟨?_, ?_, ?_, ?_, ?_, ?_⟩
  · intro sys i hpc hr
    obtain ⟨h1, h2, h3, h4, _⟩ := scraping.RunStep_entry_running_fields scrapeFn i sys hpc hr
    have hrun : scraping.Run scrapeFn i sys = scraping.RunStep scrapeFn i sys := by
      simp only [scraping.Run, scraping.runSchedule, List.foldl_cons, List.foldl_nil]
      rw [scraping.RunStep_returned scrapeFn i _ h4, scraping.RunStep_returned scrapeFn i _ h4]
    rw [hrun]
    exact ⟨h4, h1, h2, h3, h1, h2, h3⟩
  · intro sys i hpc hr
    obtain ⟨h1, h2, h3, h4, _⟩ := scraping.RunStep_entry_idle_fields scrapeFn i sys hpc hr
    exact ⟨h1, h4, h2, h3⟩
  · intro sys i hpc
    obtain ⟨_, _, h3, h4, _⟩ := scraping.RunStep_working_fields scrapeFn i sys hpc
    obtain ⟨k1, _, _, k4, _⟩ := scraping.RunStep_exiting_fields scrapeFn i _ h4
    exact ⟨h4, h3, k1, k4⟩
  · intro sys i hpc hr
    obtain ⟨_, h2, h3, h4, _⟩ := scraping.RunStep_entry_idle_fields scrapeFn i sys hpc hr
    obtain ⟨_, _, w3, w4, _⟩ := scraping.RunStep_working_fields scrapeFn i _ h4
    obtain ⟨k1, _, k3, k4, _⟩ := scraping.RunStep_exiting_fields scrapeFn i _ w4
    simp only [scraping.Run, scraping.runSchedule, List.foldl_cons, List.foldl_nil]
    refine ⟨k1, k4, ?_⟩
    rw [k3, w3, h3, h2]
  · intro store sched
    exact scraping.singleFlight_schedule scrapeFn sched _ (scraping.singleFlight_idle store)
  · intro store i a b ha hb
    obtain ⟨h1, h2, h3, _, h5⟩ := scraping.overlapping_calls scrapeFn store i a b ha hb
    exact ⟨h1, h2, h3, h5⟩

/-- Claim C9: `sendWithRateLimit` makes one `postMessage` attempt, and a second
one exactly when the first failed with a retry-after duration greater than zero;
the second attempt starts no earlier than the end of the first plus that
duration; when the retry fails too the segment is dropped (`lastSentTime`
unchanged, no third attempt); the queue is never written, and the worker removes
the segment it sends. -/
theorem C9_at_most_two_attempts {χ : Type} (env : telegram.Remote χ) (s : telegram.Sender χ)
    (text : gostring.GoString) :
    (∃ first : telegram.Attempt,
      first.text = text ∧
      (first.retryAfter, first.err)
        = telegram.postMessageResult
            (env.post (telegram.afterWait env s).remote (telegram.afterWait env s).now text).2.1 ∧
      ((first.err.isSome = true ∧ first.retryAfter > 0) →
        ∃ second : telegram.Attempt,
          (telegram.sendWithRateLimit env s text).attempts = s.attempts ++ [first, second] ∧
          second.text = text ∧ first.finish + first.retryAfter ≤ second.start ∧
          (second.err.isSome = true →
            (telegram.sendWithRateLimit env s text).lastSentTime = s.lastSentTime ∧
            (telegram.sendWithRateLimit env s text).logs.getLast?
              = some "Telegram retry failed")) ∧
      (¬ (first.err.isSome = true ∧ first.retryAfter > 0) →
        (telegram.sendWithRateLimit env s text).attempts = s.attempts ++ [first])) ∧
    (telegram.sendWithRateLimit env s text).queue = s.queue ∧
    (∀ msg rest, s.queue = msg :: rest → (telegram.workerStep env s).queue = rest) := by
  obtain ⟨a1, a2, a3, a4, a5⟩ := telegram.afterWait_frame env s
  obtain ⟨p1, p2, p3, p4, p5, p6⟩ := telegram.postMessage_frame env (telegram.afterWait env s) text
  obtain ⟨b1, b2, b3, b4, b5, b6⟩ := telegram.beforeRetry_frame env s text
  obtain ⟨q1, q2, q3, q4, q5, q6⟩ :=
    telegram.postMessage_frame env (telegram.beforeRetry env s text) text
  refine ⟨⟨⟨text, (telegram.afterWait env s).now,
      (telegram.postMessage env (telegram.afterWait env s) text).1.now,
      (telegram.postMessage env (telegram.afterWait env s) text).2.1,
      (telegram.postMessage env (telegram.afterWait env s) text).2.2⟩, rfl, p6, ?_, ?_⟩,
    telegram.sendWithRateLimit_queue env s text, ?_⟩
  · rintro ⟨he, hr⟩
    simp only at he hr
    refine ⟨⟨text, (telegram.beforeRetry env s text).now,
      (telegram.postMessage env (telegram.beforeRetry env s text) text).1.now,
      (telegram.postMessage env (telegram.beforeRetry env s text) text).2.1,
      (telegram.postMessage env (telegram.beforeRetry env s text) text).2.2⟩, ?_, rfl, b5, ?_⟩
    · cases hq : (telegram.postMessage env (telegram.beforeRetry env s text) text).2.2 with
      | none =>
        rw [telegram.sendWithRateLimit_retry_ok env s text he hr hq]
        show (telegram.postMessage env (telegram.beforeRetry env s text) text).1.attempts = _
        rw [q4, b4, p4, a4, hq]
        simp
      | some e2 =>
        rw [telegram.sendWithRateLimit_retry_failed env s text he hr (by rw [hq]; rfl)]
        show (telegram.postMessage env (telegram.beforeRetry env s text) text).1.attempts = _
        rw [q4, b4, p4, a4, hq]
        simp
    · intro hq
      simp only at hq
      rw [telegram.sendWithRateLimit_retry_failed env s text he hr hq]
      refine ⟨?_, by simp⟩
      show (telegram.postMessage env (telegram.beforeRetry env s text) text).1.lastSentTime = _
      rw [q3, b3]
  · intro hnot
    simp only [not_and] at hnot
    cases he : (telegram.postMessage env (telegram.afterWait env s) text).2.2 with
    | none =>
      rw [telegram.sendWithRateLimit_ok env s text he]
      show (telegram.postMessage env (telegram.afterWait env s) text).1.attempts = _
      rw [p4, a4, he]
    | some e =>
      have he2 : (telegram.postMessage env (telegram.afterWait env s) text).2.2.isSome = true := by
        rw [he]; rfl
      rw [telegram.sendWithRateLimit_error env s text he2 (hnot he2)]
      show (telegram.postMessage env (telegram.afterWait env s) text).1.attempts = _
      rw [p4, a4, he]
  · intro msg rest hq
    unfold telegram.workerStep
    rw [hq]
    exact telegram.sendWithRateLimit_queue env _ msg

/-- Claim C10, refuted as stated: on a fresh sender with two queued segments,
when the post of the first segment fails with status 500 after 50 ms, the first
attempt for the second segment starts 50 ms after the first attempt for the
first segment, less than the minimum interval of 1200 ms. -/
theorem C10_counterexample :
    (telegram.workerRun telegram.scriptedRemote 2
        { (telegram.NewSender 64000000000000000000 [telegram.HttpOutcome.response 500 0]) with
          queue := [[0x61], [0x62]] }).attempts
      = [⟨[0x61], 64000000000000000000, 64000000000050000000, 0, some "telegram error"⟩,
         ⟨[0x62], 64000000000050000000, 64000000000100000000, 0, none⟩] ∧
    (64000000000050000000 : Int) - 64000000000000000000 < 1200 * telegram.millisecond := by
  decide

/-- Claim C10, amended: for two segments enqueued one after the other, whatever
else is in the queue, when the delivery of the first segment succeeds (its last
attempt returns a nil error) the first attempt for the second segment starts at
least the minimum interval of 1200 ms after the first attempt for the first. -/
theorem C10_min_interval_after_success {χ : Type} (env : telegram.Remote χ)
    (s : telegram.Sender χ) (seg1 seg2 : gostring.GoString) (rest : List gostring.GoString)
    (hq : s.queue = seg1 :: seg2 :: rest)
    (hmin : s.minInterval = 1200 * telegram.millisecond) :
    ∃ (a1 : telegram.Attempt) (more1 : List telegram.Attempt) (a2 : telegram.Attempt)
      (more2 : List telegram.Attempt),
      (telegram.workerStep env s).attempts = s.attempts ++ a1 :: more1 ∧
      (telegram.workerStep env (telegram.workerStep env s)).attempts
        = (telegram.workerStep env s).attempts ++ a2 :: more2 ∧
      a1.text = seg1 ∧ a2.text = seg2 ∧
      (∀ last, (a1 :: more1).getLast? = some last → last.err = none →
        a1.start + 1200 * telegram.millisecond ≤ a2.start) := by
  have e1 := telegram.workerStep_cons env s seg1 (seg2 :: rest) hq
  obtain ⟨a1, more1, h1, h2, _, h4, h5, _⟩ := telegram.sendWithRateLimit_summary env
    { s with
      queue := seg2 :: rest
      remote := (env.idle s.remote s.now).1
      now := s.now + (env.idle s.remote s.now).2 } seg1
  rw [← e1] at h1 h4 h5
  have hq1 : (telegram.workerStep env s).queue = seg2 :: rest := by
    rw [e1, telegram.sendWithRateLimit_queue]
  have e2 := telegram.workerStep_cons env (telegram.workerStep env s) seg2 rest hq1
  obtain ⟨a2, more2, k1, k2, k3, _, _, _⟩ := telegram.sendWithRateLimit_summary env
    { (telegram.workerStep env s) with
      queue := rest
      remote := (env.idle (telegram.workerStep env s).remote (telegram.workerStep env s).now).1
      now := (telegram.workerStep env s).now
        + (env.idle (telegram.workerStep env s).remote (telegram.workerStep env s).now).2 } seg2
  rw [← e2] at k1
  refine ⟨a1, more1, a2, more2, h1, k1, h2, k2, ?_⟩
  intro last hl hlast
  obtain ⟨g1, g2⟩ := h5 last hl hlast
  have hms : telegram.millisecond = 1000000 := rfl
  have hm : (telegram.workerStep env s).minInterval = 1200 * telegram.millisecond := by
    rw [h4]; exact hmin
  have hidle : (telegram.workerStep env s).lastSentTime + (telegram.workerStep env s).minInterval
      - ((telegram.workerStep env s).now
        + (env.idle (telegram.workerStep env s).remote (telegram.workerStep env s).now).2)
      ≤ 2 ^ 63 - 1 := by
    omega
  have hw : (telegram.workerStep env s).lastSentTime + (telegram.workerStep env s).minInterval
      ≤ a2.start := by
    rw [k3]
    exact telegram.afterWait_now env _ hidle
  omega

/-- Witness for claim C10: three queued segments on a fresh sender, every post
answered with status 200. -/
theorem C10_min_interval_after_success_witness :
    ({ (telegram.NewSender 64000000000000000000 ([] : List telegram.HttpOutcome)) with
        queue := [[0x61], [0x62], [0x63]] } : telegram.Sender (List telegram.HttpOutcome)).queue
      = [0x61] :: [0x62] :: [[0x63]] ∧
    ({ (telegram.NewSender 64000000000000000000 ([] : List telegram.HttpOutcome)) with
        queue := [[0x61], [0x62], [0x63]] } : telegram.Sender (List telegram.HttpOutcome)).minInterval
      = 1200 * telegram.millisecond ∧
    ∃ (a1 : telegram.Attempt) (more1 : List telegram.Attempt) (a2 : telegram.Attempt)
      (more2 : List telegram.Attempt),
      (telegram.workerStep telegram.scriptedRemote
          { (telegram.NewSender 64000000000000000000 ([] : List telegram.HttpOutcome)) with
            queue := [[0x61], [0x62], [0x63]] }).attempts
        = [] ++ a1 :: more1 ∧
      (telegram.workerStep telegram.scriptedRemote
          (telegram.workerStep telegram.scriptedRemote
            { (telegram.NewSender 64000000000000000000 ([] : List telegram.HttpOutcome)) with
              queue := [[0x61], [0x62], [0x63]] })).attempts
        = (telegram.workerStep telegram.scriptedRemote
            { (telegram.NewSender 64000000000000000000 ([] : List telegram.HttpOutcome)) with
              queue := [[0x61], [0x62], [0x63]] }).attempts ++ a2 :: more2 ∧
      a1.text = [0x61] ∧ a2.text = [0x62] ∧
      (∀ last, (a1 :: more1).getLast? = some last → last.err = none →
        a1.start + 1200 * telegram.millisecond ≤ a2.start) :=
  ⟨rfl, rfl,
    C10_min_interval_after_success telegram.scriptedRemote
      { (telegram.NewSender 64000000000000000000 ([] : List telegram.HttpOutcome)) with
        queue := [[0x61], [0x62], [0x63]] } [0x61] [0x62] [[0x63]] rfl rfl⟩
/-- Claim C11: in `sendWithRateLimit`, with the clock as explicit state and
`lastSentTime` a past reading of it, the first attempt for a segment (and so
every attempt) starts no earlier than `lastSentTime + minInterval`;
`lastSentTime` becomes the clock reading at the end of the attempt that
succeeded and is unchanged when the segment is dropped; over a whole run of the
worker every attempt starts at least the minimum interval after every earlier
successful attempt finished. -/
theorem C11_interval_since_last_success {χ : Type} (env : telegram.Remote χ)
    (s : telegram.Sender χ) (text : gostring.GoString)
    (hmin : s.minInterval = 1200 * telegram.millisecond) (hpast : s.lastSentTime ≤ s.now) :
    (∃ (first : telegram.Attempt) (more : List telegram.Attempt),
      (telegram.sendWithRateLimit env s text).attempts = s.attempts ++ first :: more ∧
      first.text = text ∧
      s.lastSentTime + s.minInterval ≤ first.start ∧
      (∀ a ∈ first :: more, s.lastSentTime + s.minInterval ≤ a.start) ∧
      (∀ a ∈ (first :: more).dropLast, a.err.isSome = true) ∧
      (∀ last, (first :: more).getLast? = some last → last.err = none →
        (telegram.sendWithRateLimit env s text).lastSentTime
          = (telegram.sendWithRateLimit env s text).now ∧
        (telegram.sendWithRateLimit env s text).lastSentTime = last.finish) ∧
      (∀ last, (first :: more).getLast? = some last → last.err.isSome = true →
        (telegram.sendWithRateLimit env s text).lastSentTime = s.lastSentTime)) ∧
    (∀ n : Nat,
      (∀ a ∈ s.attempts, a.err = none → a.finish ≤ s.lastSentTime) →
      s.attempts.Pairwise (telegram.SpacedAfterSuccess (1200 * telegram.millisecond)) →
      (telegram.workerRun env n s).attempts.Pairwise
        (telegram.SpacedAfterSuccess (1200 * telegram.millisecond))) := by
  constructor
  · have hw := telegram.afterWait_now_of_inv env s hmin hpast
    obtain ⟨a1, a2, t1, _, t3, t4, t5, t6, _, hc⟩ := telegram.sendWithRateLimit_cases env s text
    rw [← t3] at hw
    rcases hc with ⟨e1, hatt, hl, hn⟩ | ⟨e1, _, hatt, hl, hn⟩ | ⟨e1, _, e2, hatt, hl, hn⟩ |
      ⟨e1, _, e2, hatt, hl, hn⟩
    · refine ⟨a1, [], hatt, t1, hw, ?_, ?_, ?_, ?_⟩
      · intro a ha
        simp only [List.mem_singleton] at ha
        rw [ha]; exact hw
      · intro a ha
        simp at ha
      · intro last hlast _
        simp only [List.getLast?_singleton, Option.some.injEq] at hlast
        rw [← hlast, hl, hn]
        exact ⟨rfl, rfl⟩
      · intro last hlast herr
        simp only [List.getLast?_singleton, Option.some.injEq] at hlast
        rw [← hlast, e1] at herr
        simp at herr
    · refine ⟨a1, [], hatt, t1, hw, ?_, ?_, ?_, ?_⟩
      · intro a ha
        simp only [List.mem_singleton] at ha
        rw [ha]; exact hw
      · intro a ha
        simp at ha
      · intro last hlast hsucc
        simp only [List.getLast?_singleton, Option.some.injEq] at hlast
        rw [← hlast] at hsucc
        rw [hsucc] at e1
        simp at e1
      · intro _ _ _
        exact hl
    · refine ⟨a1, [a2], hatt, t1, hw, ?_, ?_, ?_, ?_⟩
      · intro a ha
        simp only [List.mem_cons, List.mem_singleton, List.not_mem_nil, or_false] at ha
        rcases ha with ha | ha
        · rw [ha]; exact hw
        · rw [ha]; omega
      · intro a ha
        simp only [List.dropLast_cons₂, List.dropLast_single, List.mem_singleton] at ha
        rw [ha]; exact e1
      · intro last hlast _
        simp only [List.getLast?_cons_cons, List.getLast?_singleton, Option.some.injEq] at hlast
        rw [← hlast, hl, hn]
        exact ⟨rfl, rfl⟩
      · intro last hlast herr
        simp only [List.getLast?_cons_cons, List.getLast?_singleton, Option.some.injEq] at hlast
        rw [← hlast, e2] at herr
        simp at herr
    · refine ⟨a1, [a2], hatt, t1, hw, ?_, ?_, ?_, ?_⟩
      · intro a ha
        simp only [List.mem_cons, List.mem_singleton, List.not_mem_nil, or_false] at ha
        rcases ha with ha | ha
        · rw [ha]; exact hw
        · rw [ha]; omega
      · intro a ha
        simp only [List.dropLast_cons₂, List.dropLast_single, List.mem_singleton] at ha
        rw [ha]; exact e1
      · intro last hlast hsucc
        simp only [List.getLast?_cons_cons, List.getLast?_singleton, Option.some.injEq] at hlast
        rw [← hlast] at hsucc
        rw [hsucc] at e2
        simp at e2
      · intro _ _ _
        exact hl
  · intro n hfin hpair
    have hinv : telegram.WorkerInv s := ⟨hmin, hpast, hfin, by rw [hmin]; exact hpair⟩
    obtain ⟨k1, _, _, k4⟩ := telegram.workerRun_inv env n s hinv
    rw [k1] at k4
    exact k4

/-- Witness for claim C11: a fresh sender whose first post is answered with
status 429 and `retry_after = 1`. -/
theorem C11_interval_since_last_success_witness :
    (telegram.NewSender 64000000000000000000 [telegram.HttpOutcome.response 429 1]).minInterval
      = 1200 * telegram.millisecond ∧
    (telegram.NewSender 64000000000000000000 [telegram.HttpOutcome.response 429 1]).lastSentTime
      ≤ (telegram.NewSender 64000000000000000000 [telegram.HttpOutcome.response 429 1]).now ∧
    (telegram.sendWithRateLimit telegram.scriptedRemote
        (telegram.NewSender 64000000000000000000 [telegram.HttpOutcome.response 429 1])
        [0x61]).attempts.map (fun a => (a.start, a.err))
      = [(64000000000000000000, some "rate limited"), (64000000001050000000, none)] ∧
    ∃ (first : telegram.Attempt) (more : List telegram.Attempt),
      (telegram.sendWithRateLimit telegram.scriptedRemote
        (telegram.NewSender 64000000000000000000 [telegram.HttpOutcome.response 429 1])
        [0x61]).attempts = [] ++ first :: more ∧
      first.text = [0x61] ∧
      (0 : Int) + 1200 * telegram.millisecond ≤ first.start :=
  ⟨rfl, by decide, by decide,
    match (C11_interval_since_last_success telegram.scriptedRemote
      (telegram.NewSender 64000000000000000000 [telegram.HttpOutcome.response 429 1])
      [0x61] rfl (by decide)).1 with
    | ⟨first, more, h1, h2, h3, _⟩ => ⟨first, more, h1, h2, h3⟩⟩

/-- Claim C12, refuted as stated: with 100 segments in the queue and no worker
receiving, `SendAlert` for a one-byte message does not return; it stays blocked
on the send of its only segment. -/
theorem C12_counterexample :
    telegram.SendAlert (fun _ => [0x62]) (List.replicate 100 [0x61]) scraping.sampleHigh
      = some (List.replicate 100 [0x61], [[0x62]]) ∧
    ([[0x62]] : List gostring.GoString) ≠ [] := by
  decide

/-- Claim C12, amended: `SendAlert` splits the message into at least one segment
and returns without waiting for the delivery worker exactly when the queue has
room for all segments (queued plus new segments at most the capacity 100), in
which case the segments are appended to the queue in order; otherwise the
segments that fit are queued in order and the call blocks on the next one. -/
theorem C12_SendAlert_returns_iff_room (formatMessage : model.ScrapedProject → gostring.GoString)
    (queue : List gostring.GoString) (project : model.ScrapedProject) :
    ∃ (parts queued pending : List gostring.GoString),
      telegram.splitMessage (formatMessage project) 4096 = some parts ∧ parts ≠ [] ∧
      telegram.SendAlert formatMessage queue project = some (queued, pending) ∧
      (pending = [] ↔ queue.length + parts.length ≤ 100) ∧
      (pending = [] → queued = queue ++ parts) ∧
      queued ++ pending = queue ++ parts := by
  obtain ⟨parts, hp, hne⟩ := telegram.splitMessage_nonempty (formatMessage project) 4096
    (by decide)
  obtain ⟨h1, h2⟩ := telegram.sendAll_spec telegram.queueCapacity parts queue
  refine ⟨parts, _, _, hp, hne, ?_, ?_, ?_, h1⟩
  · simp [telegram.SendAlert, hp]
  · rw [h2]
    simp [hne, telegram.queueCapacity]
  · intro hpend
    rw [hpend, List.append_nil] at h1
    exact h1

/-- Claim C13: in the loop of `scrape`, a listing that fails the threshold is
counted in `belowThreshold` and dropped with no store call and no other effect;
the store is called exactly once for each listing that passes the threshold, in
batch order, with `Source`, `ExternalID`, `Title`, `Link`, `BudgetText`,
`AmountMin` and `AmountMax` copied from the listing. -/
theorem C13_threshold_filter {σ : Type} (repo : scraping.ProjectRepository σ)
    (s : scraping.LoopState σ) (batch : List model.ScrapedProject) :
    scraping.insertsOf (scraping.processBatch repo s batch).effects
      = scraping.insertsOf s.effects
        ++ (batch.filter scraping.isAboveThreshold).map scraping.projectCreateOf ∧
    (scraping.processBatch repo s batch).st.belowThreshold
      = s.st.belowThreshold
        + (batch.filter (fun p => !scraping.isAboveThreshold p)).length ∧
    (∀ p : model.ScrapedProject, scraping.isAboveThreshold p = false →
      (scraping.processProject repo s p).effects = s.effects ∧
      (scraping.processProject repo s p).store = s.store ∧
      (scraping.processProject repo s p).st
        = { s.st with belowThreshold := s.st.belowThreshold + 1 }) ∧
    (∀ p : model.ScrapedProject,
      (scraping.projectCreateOf p).Source = p.Source ∧
      (scraping.projectCreateOf p).ExternalID = p.ExternalID ∧
      (scraping.projectCreateOf p).Title = p.Title ∧
      (scraping.projectCreateOf p).Link = p.Link ∧
      (scraping.projectCreateOf p).BudgetText = p.BudgetText ∧
      (scraping.projectCreateOf p).AmountMin = p.AmountMin ∧
      (scraping.projectCreateOf p).AmountMax = p.AmountMax) ∧
    (∀ (store : σ) (completion : List scraping.SiteScraper),
      scraping.insertsOf (scraping.scrape repo store completion).1.effects
        = ((((completion.filter (fun sc => !sc.Scrape.2.isSome)).map
              (fun sc => sc.Scrape.1)).flatten).filter scraping.isAboveThreshold).map
            scraping.projectCreateOf) := by
  obtain ⟨_, _, h3, _, _, _, h7⟩ := scraping.processBatch_stats repo batch s
  refine ⟨?_, h3, ?_, ?_, ?_⟩
  · rw [scraping.processBatch_effects, scraping.insertsOf_append, h7]
  · intro p hp
    simp [scraping.processProject, hp]
  · intro p
    exact ⟨rfl, rfl, rfl, rfl, rfl, rfl, rfl⟩
  · intro store completion
    rw [(scraping.scrape_effects_store repo store completion).1]
    exact (scraping.processBatch_stats repo _ ⟨store, [], scraping.zeroStats⟩).2.2.2.2.2.2


/-- Claim C14: in karlancer's `fetchPage`, `amountMin` is the first non-zero of
`ToInt64(min_budget)`, `ToInt64(budget_from)`, `ToInt64(amount_min)`,
`ToInt64(price_min)` in that order and 0 when all are zero (an unparsable string,
a nil or a value of another type converts to 0); `amountMax` likewise from
`max_budget`, `budget_to`, `amount_max`, `price_max`; an item is kept only if
`IsAboveThreshold` holds for the derived pair, so an item whose candidates are
all zero is discarded. -/
theorem C14_karlancer_amount_fallback (p : karlancer.karlancerProject) :
    karlancer.amountMinOf p
      = providers.firstNonZero [common.ToInt64 p.MinBudget, common.ToInt64 p.BudgetFrom,
          common.ToInt64 p.AmountMin, common.ToInt64 p.PriceMin] ∧
    karlancer.amountMaxOf p
      = providers.firstNonZero [common.ToInt64 p.MaxBudget, common.ToInt64 p.BudgetTo,
          common.ToInt64 p.AmountMax, common.ToInt64 p.PriceMax] ∧
    (∀ s : gostring.GoString, common.ParseInt s = none →
      common.ToInt64 (common.GoValue.string s) = 0) ∧
    common.ToInt64 common.GoValue.null = 0 ∧ common.ToInt64 common.GoValue.other = 0 ∧
    (∀ listing, karlancer.fetchPageItem p = some listing →
      listing.AmountMin = karlancer.amountMinOf p ∧
      listing.AmountMax = karlancer.amountMaxOf p ∧
      model.IsAboveThreshold (karlancer.amountMinOf p) (karlancer.amountMaxOf p) = true) ∧
    (model.IsAboveThreshold (karlancer.amountMinOf p) (karlancer.amountMaxOf p) = false →
      karlancer.fetchPageItem p = none) ∧
    (common.ToInt64 p.MinBudget = 0 → common.ToInt64 p.BudgetFrom = 0 →
      common.ToInt64 p.AmountMin = 0 → common.ToInt64 p.PriceMin = 0 →
      common.ToInt64 p.MaxBudget = 0 → common.ToInt64 p.BudgetTo = 0 →
      common.ToInt64 p.AmountMax = 0 → common.ToInt64 p.PriceMax = 0 →
      karlancer.amountMinOf p = 0 ∧ karlancer.amountMaxOf p = 0 ∧
      karlancer.fetchPageItem p = none) := by
  refine ⟨karlancer.amountMinOf_eq p, karlancer.amountMaxOf_eq p, ?_, rfl, rfl, ?_,
    karlancer.fetchPageItem_none_of_below p, ?_⟩
  · intro s hs
    simp [common.ToInt64, hs]
  · intro listing h
    obtain ⟨_, h2, _, h4, h5, _⟩ := karlancer.fetchPageItem_some p listing h
    exact ⟨h4, h5, h2⟩
  · intro a0 a1 a2 a3 b0 b1 b2 b3
    have hmin : karlancer.amountMinOf p = 0 := by
      simp [karlancer.amountMinOf, a0, a1, a2, a3]
    have hmax : karlancer.amountMaxOf p = 0 := by
      simp [karlancer.amountMaxOf, b0, b1, b2, b3]
    refine ⟨hmin, hmax, karlancer.fetchPageItem_none_of_below p ?_⟩
    rw [hmin, hmax]
    decide

/-- Claim C15: karlancer's `pickID` returns the string form of the first
candidate whose string form is non-empty and the empty string exactly when every
candidate's string form is empty; every listing appended by karlancer's
`fetchPage` and every listing returned by ponisha's `parseProject` has a
non-empty `ExternalID` (items with an empty identifier are discarded). -/
theorem C15_external_id_nonempty :
    (∀ id uuid altID : common.GoValue,
      karlancer.pickID [id, uuid, altID]
        = providers.firstNonEmpty [common.ToString id, common.ToString uuid,
            common.ToString altID] ∧
      (karlancer.pickID [id, uuid, altID] = [] ↔
        (common.ToString id = [] ∧ common.ToString uuid = [] ∧ common.ToString altID = []))) ∧
    (∀ p : karlancer.karlancerProject,
      karlancer.pickID [p.ID, p.UUID, p.AltID] = [] → karlancer.fetchPageItem p = none) ∧
    (∀ (p : karlancer.karlancerProject) (listing : model.ScrapedProject),
      karlancer.fetchPageItem p = some listing →
        listing.ExternalID = karlancer.pickID [p.ID, p.UUID, p.AltID] ∧
        listing.ExternalID ≠ []) ∧
    (∀ (fetch : Nat → providers.Fetched (Option karlancer.karlancerData)) (page : Nat),
      ∀ listing ∈ (karlancer.fetchPage fetch page).1, listing.ExternalID ≠ []) ∧
    (∀ fields : List (gostring.GoString × common.GoValue),
      common.ToString (common.mapGet fields (common.bytesOf "id")) = [] →
        ponisha.parseProject (common.GoValue.object fields) = none) ∧
    (∀ (item : common.GoValue) (listing : model.ScrapedProject),
      ponisha.parseProject item = some listing → listing.ExternalID ≠ []) := by
  refine ⟨?_, ?_, ?_, ?_, ?_, ?_⟩
  · intro id uuid altID
    refine ⟨karlancer.pickID_eq_firstNonEmpty _, ?_⟩
    rw [karlancer.pickID_eq_nil_iff]
    simp
  · intro p h
    simp [karlancer.fetchPageItem, h]
  · intro p listing h
    obtain ⟨h1, _, h3, _⟩ := karlancer.fetchPageItem_some p listing h
    exact ⟨h3, by rw [h3]; exact h1⟩
  · intro fetch page listing hl
    obtain ⟨p, hp⟩ := karlancer.karlancer_mem_fetchPage fetch page listing hl
    obtain ⟨h1, _, h3, _⟩ := karlancer.fetchPageItem_some p listing hp
    rw [h3]; exact h1
  · intro fields h
    simp [ponisha.parseProject, h]
  · intro item listing h
    obtain ⟨p, _, h1, h2, _⟩ := ponisha.parseProject_some item listing h
    rw [h2]; exact h1

/-- Claim C17: every listing returned by ponisha's `parseProject` and every
listing appended by karlancer's `fetchPage` satisfies
`IsAboveThreshold(AmountMin, AmountMax)` and has
`BudgetText = FormatBudgetText(AmountMin, AmountMax)`; hence every listing
returned by either scraper's `Scrape` passes the threshold check of the
orchestrator. -/
theorem C17_early_threshold_filter :
    (∀ (item : common.GoValue) (listing : model.ScrapedProject),
      ponisha.parseProject item = some listing →
        model.IsAboveThreshold listing.AmountMin listing.AmountMax = true ∧
        listing.BudgetText = common.FormatBudgetText listing.AmountMin listing.AmountMax) ∧
    (∀ (p : karlancer.karlancerProject) (listing : model.ScrapedProject),
      karlancer.fetchPageItem p = some listing →
        model.IsAboveThreshold listing.AmountMin listing.AmountMax = true ∧
        listing.BudgetText = common.FormatBudgetText listing.AmountMin listing.AmountMax) ∧
    (∀ (fetch : Nat → providers.Fetched (Option ponisha.ponishaData)) (order : List Nat),
      ∀ listing ∈ (ponisha.Scrape fetch order).projects,
        scraping.isAboveThreshold listing = true ∧
        listing.BudgetText = common.FormatBudgetText listing.AmountMin listing.AmountMax) ∧
    (∀ (fetch : Nat → providers.Fetched (Option karlancer.karlancerData)) (order : List Nat),
      ∀ listing ∈ (karlancer.Scrape fetch order).projects,
        scraping.isAboveThreshold listing = true ∧
        listing.BudgetText = common.FormatBudgetText listing.AmountMin listing.AmountMax) := by
  have hp : ∀ (item : common.GoValue) (listing : model.ScrapedProject),
      ponisha.parseProject item = some listing →
        model.IsAboveThreshold listing.AmountMin listing.AmountMax = true ∧
        listing.BudgetText = common.FormatBudgetText listing.AmountMin listing.AmountMax := by
    intro item listing h
    obtain ⟨_, _, _, _, _, _, h6, h7, _⟩ := ponisha.parseProject_some item listing h
    exact ⟨h6, h7⟩
  have hk : ∀ (p : karlancer.karlancerProject) (listing : model.ScrapedProject),
      karlancer.fetchPageItem p = some listing →
        model.IsAboveThreshold listing.AmountMin listing.AmountMax = true ∧
        listing.BudgetText = common.FormatBudgetText listing.AmountMin listing.AmountMax := by
    intro p listing h
    obtain ⟨_, h2, _, h4, h5, h6, _⟩ := karlancer.fetchPageItem_some p listing h
    rw [h4, h5]
    exact ⟨h2, h6⟩
  refine ⟨hp, hk, ?_, ?_⟩
  · intro fetch order listing hl
    obtain ⟨page, hpage⟩ := ponisha.ponisha_mem_Scrape fetch order listing hl
    obtain ⟨item, hitem⟩ := ponisha.ponisha_mem_fetchPage fetch page listing hpage
    exact hp item listing hitem
  · intro fetch order listing hl
    obtain ⟨page, hpage⟩ := karlancer.karlancer_mem_Scrape fetch order listing hl
    obtain ⟨p, hitem⟩ := karlancer.karlancer_mem_fetchPage fetch page listing hpage
    exact hk p listing hitem
/-- Claim C19: for every amount greater than 0, `formatToman(amount)` is the
decimal digits of the amount in groups joined by commas, the first group of 1 to
3 digits and every later group of exactly 3, so that deleting the commas gives
back the decimal representation (99000001 gives `99,000,001`);
`FormatBudgetText(min, max)` is the from-to form when both are greater than 0,
the up-to form with only `max` when only `max` is, the from form with only `min`
when only `min` is, and the fixed text otherwise. -/
theorem C19_budget_text_format :
    (∀ amount : Int, 0 < amount →
      ∃ (g : gostring.GoString) (rest : List gostring.GoString),
        common.formatToman amount = common.joinCommas (g :: rest) ∧
        (g :: rest).flatten = common.FormatInt amount ∧
        1 ≤ g.length ∧ g.length ≤ 3 ∧ (∀ r ∈ rest, r.length = 3) ∧
        (∀ x ∈ g :: rest, ∀ b ∈ x, 0x30 ≤ b ∧ b ≤ 0x39) ∧
        (common.formatToman amount).filter (fun b => b != 0x2C) = common.FormatInt amount ∧
        common.parseDigits (common.FormatInt amount) = some amount.toNat ∧
        (common.FormatInt amount).head? ≠ some 0x30) ∧
    common.formatToman 99000001 = common.bytesOf "99,000,001" ∧
    (∀ amountMin amountMax : Int, 0 < amountMin → 0 < amountMax →
      common.FormatBudgetText amountMin amountMax
        = common.bytesOf "از " ++ common.formatToman amountMin ++ common.bytesOf " تا "
          ++ common.formatToman amountMax ++ common.bytesOf " تومان") ∧
    (∀ amountMin amountMax : Int, ¬ 0 < amountMin → 0 < amountMax →
      common.FormatBudgetText amountMin amountMax
        = common.bytesOf "تا " ++ common.formatToman amountMax ++ common.bytesOf " تومان") ∧
    (∀ amountMin amountMax : Int, 0 < amountMin → ¬ 0 < amountMax →
      common.FormatBudgetText amountMin amountMax
        = common.bytesOf "از " ++ common.formatToman amountMin ++ common.bytesOf " تومان") ∧
    (∀ amountMin amountMax : Int, ¬ 0 < amountMin → ¬ 0 < amountMax →
      common.FormatBudgetText amountMin amountMax = common.bytesOf "نامشخص") := by
  refine ⟨?_, by decide, ?_, ?_, ?_, ?_⟩
  · intro amount hpos
    obtain ⟨hne, hdig, hhead, hval⟩ := common.FormatInt_pos amount hpos
    have hnoMinus : (common.FormatInt amount).head? ≠ some 0x2D := by
      cases hD : common.FormatInt amount with
      | nil => simp
      | cons d ds =>
        have := hdig d (by rw [hD]; exact List.mem_cons_self _ _)
        simp only [List.head?_cons, ne_eq, Option.some.injEq]
        omega
    have hgroups : ∃ (g : gostring.GoString) (rest : List gostring.GoString),
        common.formatToman amount = common.joinCommas (g :: rest) ∧
        (g :: rest).flatten = common.FormatInt amount ∧
        1 ≤ g.length ∧ g.length ≤ 3 ∧ (∀ r ∈ rest, r.length = 3) := by
      by_cases hlen : (common.FormatInt amount).length ≤ 3
      · refine ⟨common.FormatInt amount, [], ?_, by simp, ?_, hlen, by simp⟩
        · simp [common.formatToman, common.formatWithCommas, hlen, common.joinCommas]
        · cases hD : common.FormatInt amount with
          | nil => exact absurd hD hne
          | cons d ds => simp
      · exact common.formatWithCommas_groups _ (by omega) hnoMinus
    obtain ⟨g, rest, h1, h2, h3, h4, h5⟩ := hgroups
    have hdigits : ∀ x ∈ g :: rest, ∀ b ∈ x, 0x30 ≤ b ∧ b ≤ 0x39 := by
      intro x hx b hb
      apply hdig b
      rw [← h2, List.mem_flatten]
      exact ⟨x, hx, hb⟩
    refine ⟨g, rest, h1, h2, h3, h4, h5, hdigits, ?_, hval, hhead⟩
    rw [h1, common.filter_joinCommas _ (by
      intro x hx b hb
      have := hdigits x hx b hb
      omega), h2]
  · intro amountMin amountMax h1 h2
    simp [common.FormatBudgetText, h1, h2]
  · intro amountMin amountMax h1 h2
    simp [common.FormatBudgetText, h1, h2]
  · intro amountMin amountMax h1 h2
    simp [common.FormatBudgetText, h1, h2]
  · intro amountMin amountMax h1 h2
    simp [common.FormatBudgetText, h1, h2]
